import Mathlib

/-!
Verification of the session-token authority of `src/auth.py`.

The embedding is executable and byte-faithful: SHA-256, HMAC-SHA256, lowercase
hex, URL-safe base64, UTF-8, and the JSON serializer/parser used by
`create_simple_jwt` / `verify_simple_jwt` are all implemented concretely over
`List Nat` (bytes, always `< 256`) and `List Char`, so proofs can evaluate the
real pipeline on concrete tokens.

Modelling decisions, stated once:
* The module-level `JWT_SECRET` (environment variable with fallback
  `"demo-secret-key"`) is passed as an explicit `secret` parameter; the
  fallback literal is `JWT_SECRET_fallback`.
* `datetime.utcnow().timestamp()` returns float seconds; timestamps are
  modelled as `Nat` seconds (`now`), and JSON numbers as nonnegative integers.
  The 24-hour lifetime is `86400` seconds.
* Python exceptions swallowed by the bare `except:` in `verify_simple_jwt`
  are modelled by `Option`-returning decoders/parsers.
* `json.dumps` is modelled with its default separators (`", "` and `": "`) and
  `ensure_ascii=True` escaping; `json.loads` by a recursive-descent parser over
  the same grammar restricted to nonnegative integer numerals.  A `\uXXXX`
  escape that is a lone surrogate is rejected by the model (Lean `Char` cannot
  carry lone surrogates; Python would keep them).
* Python dict semantics for duplicate JSON keys (last occurrence wins) is
  `objGetLast`.
-/

set_option maxRecDepth 40000

namespace DemoAuth

/-! ## SHA-256 over byte lists (bytes are `Nat < 256`) -/

/-- 2^32, the word modulus of SHA-256. -/
def w32 : Nat := 4294967296

/-- Right rotation of a 32-bit word (input assumed `< 2^32`). -/
def rotr (n x : Nat) : Nat := ((x >>> n) ||| (x <<< (32 - n))) % w32

def bigS0 (x : Nat) : Nat := rotr 2 x ^^^ rotr 13 x ^^^ rotr 22 x
def bigS1 (x : Nat) : Nat := rotr 6 x ^^^ rotr 11 x ^^^ rotr 25 x
def smallS0 (x : Nat) : Nat := rotr 7 x ^^^ rotr 18 x ^^^ (x >>> 3)
def smallS1 (x : Nat) : Nat := rotr 17 x ^^^ rotr 19 x ^^^ (x >>> 10)
def chF (x y z : Nat) : Nat := (x &&& y) ^^^ ((4294967295 - x) &&& z)
def majF (x y z : Nat) : Nat := (x &&& y) ^^^ (x &&& z) ^^^ (y &&& z)

/-- The 64 SHA-256 round constants. -/
def sha256K : List Nat :=
  [
   1116352408, 1899447441, 3049323471, 3921009573, 961987163, 1508970993,
   2453635748, 2870763221, 3624381080, 310598401, 607225278, 1426881987,
   1925078388, 2162078206, 2614888103, 3248222580, 3835390401, 4022224774,
   264347078, 604807628, 770255983, 1249150122, 1555081692, 1996064986,
   2554220882, 2821834349, 2952996808, 3210313671, 3336571891, 3584528711,
   113926993, 338241895, 666307205, 773529912, 1294757372, 1396182291,
   1695183700, 1986661051, 2177026350, 2456956037, 2730485921, 2820302411,
   3259730800, 3345764771, 3516065817, 3600352804, 4094571909, 275423344,
   430227734, 506948616, 659060556, 883997877, 958139571, 1322822218,
   1537002063, 1747873779, 1955562222, 2024104815, 2227730452, 2361852424,
   2428436474, 2756734187, 3204031479, 3329325298]

/-- The initial SHA-256 state. -/
def sha256Init : List Nat :=
  [1779033703, 3144134277, 1013904242, 2773480762, 1359893119, 2600822924, 528734635, 1541459225]

/-- Pack big-endian groups of four bytes into 32-bit words. -/
def bytesToWords : List Nat → List Nat
  | a :: b :: c :: d :: rest => (((a * 256 + b) * 256 + c) * 256 + d) :: bytesToWords rest
  | _ => []

/-- Extend the 16 message-schedule words by `n` more words. -/
def extendW (w : List Nat) : Nat → List Nat
  | 0 => w
  | n + 1 =>
    let w' := extendW w n
    let len := w'.length
    w' ++ [(smallS1 (w'.getD (len - 2) 0) + w'.getD (len - 7) 0 +
            smallS0 (w'.getD (len - 15) 0) + w'.getD (len - 16) 0) % w32]

/-- One round of the SHA-256 compression function. -/
def compressStep (st : List Nat) (kw : Nat × Nat) : List Nat :=
  match st with
  | [a, b, c, d, e, f, g, h] =>
    let t1 := (h + bigS1 e + chF e f g + kw.1 + kw.2) % w32
    let t2 := (bigS0 a + majF a b c) % w32
    [(t1 + t2) % w32, a, b, c, (d + t1) % w32, e, f, g]
  | other => other

/-- Process one 64-byte block. -/
def processBlock (h : List Nat) (block : List Nat) : List Nat :=
  let w := extendW (bytesToWords block) 48
  let st := (sha256K.zip w).foldl compressStep h
  (h.zip st).map (fun p => (p.1 + p.2) % w32)

/-- Big-endian byte expansion of a word into `k` bytes. -/
def wordBytes (k n : Nat) : List Nat :=
  match k with
  | 0 => []
  | k + 1 => wordBytes k (n / 256) ++ [n % 256]

/-- SHA-256 padding: `0x80`, zeros to 56 mod 64, then the bit length. -/
def sha256Pad (msg : List Nat) : List Nat :=
  let l := msg.length
  msg ++ [0x80] ++ List.replicate ((119 - l % 64) % 64) 0 ++ wordBytes 8 (l * 8)

/-- Split into 64-byte chunks (fuel-based so the kernel can reduce it). -/
def chunks64Fuel : Nat → List Nat → List (List Nat)
  | 0, _ => []
  | _, [] => []
  | f + 1, x :: xs => (x :: xs).take 64 :: chunks64Fuel f ((x :: xs).drop 64)

def chunks64 (l : List Nat) : List (List Nat) := chunks64Fuel l.length l

/-- SHA-256 digest (32 bytes) of a byte list. -/
def sha256Bytes (msg : List Nat) : List Nat :=
  ((chunks64 (sha256Pad msg)).foldl processBlock sha256Init).flatMap (wordBytes 4)

/-! ## Lowercase hex -/

/-- Lowercase hex digit, by table. -/
def hexChar (n : Nat) : Char := "0123456789abcdef".data.getD n '0'

/-- Lowercase hex of a byte list, as produced by Python's `hexdigest()`. -/
def bytesToHexChars (bs : List Nat) : List Char :=
  bs.flatMap (fun b => [hexChar (b / 16), hexChar (b % 16)])

/-! ## UTF-8 (`str.encode()` / `bytes.decode()`) -/

/-- UTF-8 encoding of one scalar value. -/
def utf8EncodeChar (c : Char) : List Nat :=
  let n := c.toNat
  if n < 128 then [n]
  else if n < 2048 then [192 + n / 64, 128 + n % 64]
  else if n < 65536 then [224 + n / 4096, 128 + n / 64 % 64, 128 + n % 64]
  else [240 + n / 262144, 128 + n / 4096 % 64, 128 + n / 64 % 64, 128 + n % 64]

def utf8EncodeList (cs : List Char) : List Nat := cs.flatMap utf8EncodeChar

/-- `str.encode()`: UTF-8 bytes of a string. -/
def utf8Encode (s : String) : List Nat := utf8EncodeList s.data

/-- A UTF-8 continuation byte. -/
def utf8Cont (b : Nat) : Prop := 128 ≤ b ∧ b < 192

instance (b : Nat) : Decidable (utf8Cont b) := by unfold utf8Cont; infer_instance

/-- Second-byte constraint of a three-byte sequence (excludes overlong forms
and surrogates, as Python's strict decoder does). -/
def utf8Guard3 (b b2 : Nat) : Prop :=
  if b = 224 then 160 ≤ b2 ∧ b2 < 192
  else if b = 237 then 128 ≤ b2 ∧ b2 < 160
  else 128 ≤ b2 ∧ b2 < 192

instance (b b2 : Nat) : Decidable (utf8Guard3 b b2) := by unfold utf8Guard3; infer_instance

/-- Second-byte constraint of a four-byte sequence (excludes overlong forms
and values above 0x10FFFF). -/
def utf8Guard4 (b b2 : Nat) : Prop :=
  if b = 240 then 144 ≤ b2 ∧ b2 < 192
  else if b = 244 then 128 ≤ b2 ∧ b2 < 144
  else 128 ≤ b2 ∧ b2 < 192

instance (b b2 : Nat) : Decidable (utf8Guard4 b b2) := by unfold utf8Guard4; infer_instance

/-- Decode the two-byte sequence led by `b`. -/
def utf8Dec2 (b : Nat) : List Nat → Option (Char × List Nat)
  | b2 :: r =>
    if utf8Cont b2 then some (Char.ofNat ((b - 192) * 64 + (b2 - 128)), r) else none
  | [] => none

/-- Decode the three-byte sequence led by `b`. -/
def utf8Dec3 (b : Nat) : List Nat → Option (Char × List Nat)
  | b2 :: b3 :: r =>
    if utf8Guard3 b b2 ∧ utf8Cont b3 then
      some (Char.ofNat ((b - 224) * 4096 + (b2 - 128) * 64 + (b3 - 128)), r)
    else none
  | _ => none

/-- Decode the four-byte sequence led by `b`. -/
def utf8Dec4 (b : Nat) : List Nat → Option (Char × List Nat)
  | b2 :: b3 :: b4 :: r =>
    if utf8Guard4 b b2 ∧ utf8Cont b3 ∧ utf8Cont b4 then
      some (Char.ofNat ((b - 240) * 262144 + (b2 - 128) * 4096 + (b3 - 128) * 64 + (b4 - 128)), r)
    else none
  | _ => none

/-- Decode one scalar from the front of a byte stream. -/
def utf8Step : List Nat → Option (Char × List Nat)
  | [] => none
  | b :: rest =>
    if b < 128 then some (Char.ofNat b, rest)
    else if b < 194 then none
    else if b < 224 then utf8Dec2 b rest
    else if b < 240 then utf8Dec3 b rest
    else if b < 245 then utf8Dec4 b rest
    else none

/-- Decode scalars until the stream is exhausted (fuel-based so the kernel
can reduce it; `utf8Step` consumes at least one byte per scalar). -/
def utf8DecodeLoop : Nat → List Nat → Option (List Char)
  | _, [] => some []
  | 0, _ :: _ => none
  | f + 1, b :: rest =>
    match utf8Step (b :: rest) with
    | none => none
    | some (c, r) => (utf8DecodeLoop f r).map (fun cs => c :: cs)

/-- Strict UTF-8 decoding (`bytes.decode()`), rejecting truncated sequences,
overlong forms and surrogates; failure models `UnicodeDecodeError`. -/
def utf8Decode (bs : List Nat) : Option (List Char) := utf8DecodeLoop bs.length bs

/-! ## HMAC-SHA256 (`hmac.new(key, msg, hashlib.sha256)`) -/

/-- HMAC-SHA256 digest (32 bytes). -/
def hmacSha256 (key msg : List Nat) : List Nat :=
  let k0 := if 64 < key.length then sha256Bytes key else key
  let kp := k0 ++ List.replicate (64 - k0.length) 0
  sha256Bytes ((kp.map (· ^^^ 0x5c)) ++ sha256Bytes ((kp.map (· ^^^ 0x36)) ++ msg))

/-- `hmac.new(secret.encode(), msg.encode(), hashlib.sha256).hexdigest()`. -/
def hmacSha256HexChars (secret : String) (msg : List Char) : List Char :=
  bytesToHexChars (hmacSha256 (utf8Encode secret) (utf8EncodeList msg))

/-! ## URL-safe base64 (`base64.urlsafe_b64encode` / `urlsafe_b64decode`) -/

/-- The URL-safe base64 alphabet, by table. -/
def b64Char (n : Nat) : Char :=
  "ABCDEFGHIJKLMNOPQRSTUVWXYZabcdefghijklmnopqrstuvwxyz0123456789-_".data.getD n 'A'

/-- URL-safe base64 encoding with `=` padding. -/
def b64encodeChars : List Nat → List Char
  | [] => []
  | [a] => [b64Char (a / 4), b64Char (a % 4 * 16), '=', '=']
  | [a, b] => [b64Char (a / 4), b64Char (a % 4 * 16 + b / 16), b64Char (b % 16 * 4), '=']
  | a :: b :: c :: rest =>
    b64Char (a / 4) :: b64Char (a % 4 * 16 + b / 16) :: b64Char (b % 16 * 4 + c / 64) ::
      b64Char (c % 64) :: b64encodeChars rest

/-- Value of one base64 character.  `urlsafe_b64decode` first translates
`-`/`_` to `+`/`/`, so both alphabets are accepted. -/
def b64Val (c : Char) : Option Nat :=
  let n := c.toNat
  if 65 ≤ n ∧ n ≤ 90 then some (n - 65)
  else if 97 ≤ n ∧ n ≤ 122 then some (n - 71)
  else if 48 ≤ n ∧ n ≤ 57 then some (n + 4)
  else if n = 43 ∨ n = 45 then some 62
  else if n = 47 ∨ n = 95 then some 63
  else none

/-- Decode quads of base64 characters; the final quad may carry `=` padding
(the unused low bits of a padded quad are ignored, as `binascii` does). -/
def b64decodeCore : List Char → Option (List Nat)
  | [] => some []
  | c1 :: c2 :: c3 :: c4 :: rest =>
    if c3 = '=' ∧ c4 = '=' ∧ rest = [] then
      match b64Val c1, b64Val c2 with
      | some v1, some v2 => some [v1 * 4 + v2 / 16]
      | _, _ => none
    else if c4 = '=' ∧ rest = [] then
      match b64Val c1, b64Val c2, b64Val c3 with
      | some v1, some v2, some v3 => some [v1 * 4 + v2 / 16, v2 % 16 * 16 + v3 / 4]
      | _, _, _ => none
    else
      match b64Val c1, b64Val c2, b64Val c3, b64Val c4, b64decodeCore rest with
      | some v1, some v2, some v3, some v4, some bs =>
        some ((v1 * 4 + v2 / 16) :: (v2 % 16 * 16 + v3 / 4) :: (v3 % 4 * 64 + v4) :: bs)
      | _, _, _, _, _ => none
  | _ => none

/-- `base64.urlsafe_b64decode` on a `str`: requires ASCII, discards characters
outside the (translated) alphabet, then decodes with padding. -/
def b64decodeChars (s : List Char) : Option (List Nat) :=
  if s.all (fun c => c.toNat ≤ 127) then
    b64decodeCore (s.filter (fun c => (b64Val c).isSome || c = '='))
  else none

/-! ## `str.split` on a single character -/

/-- `token.split(".")`, character-list version. -/
def splitOnChar (sep : Char) : List Char → List (List Char)
  | [] => [[]]
  | c :: rest =>
    if c = sep then [] :: splitOnChar sep rest
    else
      match splitOnChar sep rest with
      | [] => [[c]]
      | h :: t => (c :: h) :: t

/-! ## JSON values

Mutual inductives (rather than a nested `List`) so that serialization is
plain structural recursion that the kernel can reduce. -/

mutual

inductive Json where
  | null : Json
  | bool (b : Bool) : Json
  | num (n : Nat) : Json
  | str (s : String) : Json
  | arr (elems : JsonArr) : Json
  | obj (members : JsonObj) : Json

inductive JsonArr where
  | nil : JsonArr
  | cons (hd : Json) (tl : JsonArr) : JsonArr

inductive JsonObj where
  | nil : JsonObj
  | cons (key : String) (val : Json) (tl : JsonObj) : JsonObj

end

deriving instance DecidableEq for Json, JsonArr, JsonObj

/-! ### Serialization — `json.dumps` with default separators and
`ensure_ascii=True` -/

/-- Decimal digit, by table. -/
def digitChar (n : Nat) : Char := "0123456789".data.getD n '0'

/-- Decimal digits of `n`, most significant first (fuel-based; `n < fuel`). -/
def natDigitsAux : Nat → Nat → List Char
  | 0, _ => []
  | f + 1, n => if n < 10 then [digitChar n] else natDigitsAux f (n / 10) ++ [digitChar (n % 10)]

/-- Decimal rendering of a natural number. -/
def natChars (n : Nat) : List Char := natDigitsAux (n + 1) n

/-- Four lowercase hex digits, for `\uXXXX` escapes. -/
def hex4 (n : Nat) : List Char :=
  [hexChar (n / 4096 % 16), hexChar (n / 256 % 16), hexChar (n / 16 % 16), hexChar (n % 16)]

/-- Python `json` escaping of one character (`ensure_ascii=True`): short
escapes for `"`, `\`, and the five named controls; `\u00XX` for other
controls; printable ASCII verbatim; `\uXXXX` (with surrogate pairs beyond
the BMP) for everything non-ASCII. -/
def escChar (c : Char) : List Char :=
  let n := c.toNat
  if c = '"' then ['\\', '"']
  else if c = '\\' then ['\\', '\\']
  else if n = 10 then ['\\', 'n']
  else if n = 13 then ['\\', 'r']
  else if n = 9 then ['\\', 't']
  else if n = 8 then ['\\', 'b']
  else if n = 12 then ['\\', 'f']
  else if n < 32 ∨ 127 ≤ n then
    if n < 65536 then '\\' :: 'u' :: hex4 n
    else
      let m := n - 65536
      '\\' :: 'u' :: hex4 (55296 + m / 1024) ++ '\\' :: 'u' :: hex4 (56320 + m % 1024)
  else [c]

def escList (cs : List Char) : List Char := cs.flatMap escChar

mutual

/-- `json.dumps` of a value (default separators `", "` and `": "`). -/
def dumpJson : Json → List Char
  | .null => "null".data
  | .bool true => "true".data
  | .bool false => "false".data
  | .num n => natChars n
  | .str s => '"' :: escList s.data ++ ['"']
  | .arr xs => '[' :: dumpElems xs ++ [']']
  | .obj kvs => '{' :: dumpMembers kvs ++ ['}']

/-- Array elements joined by `", "`. -/
def dumpElems : JsonArr → List Char
  | .nil => []
  | .cons v .nil => dumpJson v
  | .cons v (.cons w tl) =>
    dumpJson v ++ ',' :: ' ' :: dumpElems (JsonArr.cons w tl)

/-- Object members `"key": value` joined by `", "`. -/
def dumpMembers : JsonObj → List Char
  | .nil => []
  | .cons k v .nil => '"' :: escList k.data ++ '"' :: ':' :: ' ' :: dumpJson v
  | .cons k v (.cons k2 v2 tl) =>
    '"' :: escList k.data ++ '"' :: ':' :: ' ' :: dumpJson v ++
      ',' :: ' ' :: dumpMembers (JsonObj.cons k2 v2 tl)

end

/-! ### Parsing — `json.loads` -/

/-- JSON whitespace (`json` skips space, tab, newline, carriage return). -/
def isJsonWs (c : Char) : Bool := c = ' ' || c = '\t' || c = '\n' || c = '\r'

def skipWs (l : List Char) : List Char := l.dropWhile isJsonWs

/-- Match a literal character sequence, returning the remainder. -/
def dropLit : List Char → List Char → Option (List Char)
  | [], l => some l
  | p :: ps, c :: cs => if c = p then dropLit ps cs else none
  | _ :: _, [] => none

def isDigitChar (c : Char) : Bool := 48 ≤ c.toNat && c.toNat ≤ 57

/-- Accumulate leading decimal digits. -/
def digitsToNatAcc : Nat → List Char → Nat × List Char
  | acc, [] => (acc, [])
  | acc, c :: rest =>
    if isDigitChar c then digitsToNatAcc (acc * 10 + (c.toNat - 48)) rest else (acc, c :: rest)

/-- One hex digit, either case. -/
def parseHexDig (c : Char) : Option Nat :=
  let n := c.toNat
  if 48 ≤ n ∧ n ≤ 57 then some (n - 48)
  else if 97 ≤ n ∧ n ≤ 102 then some (n - 87)
  else if 65 ≤ n ∧ n ≤ 70 then some (n - 55)
  else none

/-- Four hex digits as one scalar. -/
def parse4Hex (h1 h2 h3 h4 : Char) : Option Nat :=
  match parseHexDig h1, parseHexDig h2, parseHexDig h3, parseHexDig h4 with
  | some v1, some v2, some v3, some v4 => some (v1 * 4096 + v2 * 256 + v3 * 16 + v4)
  | _, _, _, _ => none

/-- One token of a JSON string body: either the closing quote or one
decoded character. -/
inductive StrTok where
  | done : StrTok
  | oneChar (c : Char) : StrTok

/-- A low surrogate escape `\uXXXX` following a high surrogate `n`;
together they decode to one supplementary character. -/
def parseLowSur (n : Nat) : List Char → Option (StrTok × List Char)
  | e1 :: e2 :: g1 :: g2 :: g3 :: g4 :: rest4 =>
    if e1 = '\\' ∧ e2 = 'u' then
      (parse4Hex g1 g2 g3 g4).bind (fun m =>
        if 56320 ≤ m ∧ m < 57344 then
          some (.oneChar (Char.ofNat (65536 + (n - 55296) * 1024 + (m - 56320))), rest4)
        else none)
    else none
  | _ => none

/-- A `\uXXXX` escape (after the `\u`); a high surrogate must be followed by
a low surrogate (a lone surrogate is unrepresentable in `Char`, see the
header). -/
def parseUEsc : List Char → Option (StrTok × List Char)
  | h1 :: h2 :: h3 :: h4 :: rest3 =>
    (parse4Hex h1 h2 h3 h4).bind (fun n =>
      if n < 55296 ∨ 57344 ≤ n then some (.oneChar (Char.ofNat n), rest3)
      else if n < 56320 then parseLowSur n rest3
      else none)
  | _ => none

/-- A backslash escape (after the backslash). -/
def parseEsc : List Char → Option (StrTok × List Char)
  | [] => none
  | e :: rest2 =>
    if e = '"' then some (.oneChar '"', rest2)
    else if e = '\\' then some (.oneChar '\\', rest2)
    else if e = '/' then some (.oneChar '/', rest2)
    else if e = 'b' then some (.oneChar (Char.ofNat 8), rest2)
    else if e = 'f' then some (.oneChar (Char.ofNat 12), rest2)
    else if e = 'n' then some (.oneChar (Char.ofNat 10), rest2)
    else if e = 'r' then some (.oneChar (Char.ofNat 13), rest2)
    else if e = 't' then some (.oneChar (Char.ofNat 9), rest2)
    else if e = 'u' then parseUEsc rest2
    else none

/-- One step of string-body parsing; raw control characters are rejected
(`strict=True`). -/
def parseStrTok : List Char → Option (StrTok × List Char)
  | [] => none
  | c :: rest =>
    if c = '"' then some (.done, rest)
    else if c = '\\' then parseEsc rest
    else if c.toNat < 32 then none
    else some (.oneChar c, rest)

/-- String-body parsing loop (fuel-based; each step consumes at least one
character). -/
def parseStrLoop : Nat → List Char → Option (List Char × List Char)
  | 0, _ => none
  | f + 1, l =>
    match parseStrTok l with
    | none => none
    | some (.done, r) => some ([], r)
    | some (.oneChar c, r) => (parseStrLoop f r).map (fun p => (c :: p.1, p.2))

/-- Body of a JSON string after the opening quote.  Handles the standard
escapes and `\uXXXX` with surrogate-pair recombination; rejects raw control
characters (`strict=True`) and lone surrogates (unrepresentable in `Char`). -/
def parseStrBody (l : List Char) : Option (List Char × List Char) :=
  parseStrLoop (l.length + 1) l

mutual

/-- Recursive-descent JSON value, fuel-based.  The numeric grammar is
restricted to nonnegative integer literals (see the header). -/
def parseValue : Nat → List Char → Option (Json × List Char)
  | 0, _ => none
  | _ + 1, [] => none
  | f + 1, c :: rest =>
      if c = '"' then (parseStrBody rest).map (fun p => (Json.str (String.mk p.1), p.2))
      else if c = '[' then
        if (skipWs rest).head? = some ']' then some (Json.arr JsonArr.nil, (skipWs rest).tail)
        else (parseElems f (skipWs rest)).map (fun p => (Json.arr p.1, p.2))
      else if c = '{' then
        if (skipWs rest).head? = some '}' then some (Json.obj JsonObj.nil, (skipWs rest).tail)
        else (parseMembers f (skipWs rest)).map (fun p => (Json.obj p.1, p.2))
      else if c = 't' then (dropLit ['r', 'u', 'e'] rest).map (fun r => (Json.bool true, r))
      else if c = 'f' then (dropLit ['a', 'l', 's', 'e'] rest).map (fun r => (Json.bool false, r))
      else if c = 'n' then (dropLit ['u', 'l', 'l'] rest).map (fun r => (Json.null, r))
      else if isDigitChar c then
        some (Json.num (digitsToNatAcc (c.toNat - 48) rest).1,
          (digitsToNatAcc (c.toNat - 48) rest).2)
      else none

/-- Nonempty comma-separated element list up to the closing `]`. -/
def parseElems : Nat → List Char → Option (JsonArr × List Char)
  | 0, _ => none
  | f + 1, l =>
    (parseValue f l).bind (fun vr =>
      if (skipWs vr.2).head? = some ',' then
        (parseElems f (skipWs (skipWs vr.2).tail)).map
          (fun p => (JsonArr.cons vr.1 p.1, p.2))
      else if (skipWs vr.2).head? = some ']' then
        some (JsonArr.cons vr.1 JsonArr.nil, (skipWs vr.2).tail)
      else none)

/-- Nonempty member list up to the closing `}`. -/
def parseMembers : Nat → List Char → Option (JsonObj × List Char)
  | 0, _ => none
  | f + 1, l =>
    if l.head? = some '"' then
      (parseStrBody l.tail).bind (fun kr =>
        if (skipWs kr.2).head? = some ':' then
          (parseValue f (skipWs (skipWs kr.2).tail)).bind (fun vr =>
            if (skipWs vr.2).head? = some ',' then
              (parseMembers f (skipWs (skipWs vr.2).tail)).map
                (fun p => (JsonObj.cons (String.mk kr.1) vr.1 p.1, p.2))
            else if (skipWs vr.2).head? = some '}' then
              some (JsonObj.cons (String.mk kr.1) vr.1 JsonObj.nil, (skipWs vr.2).tail)
            else none)
        else none)
    else none

end

/-- `json.loads`: skip surrounding whitespace, parse one value, require the
input to be fully consumed. -/
def parseJsonTop (l : List Char) : Option Json :=
  match parseValue (l.length + 1) (skipWs l) with
  | some (v, r) => if skipWs r = [] then some v else none
  | none => none

/-- Last-occurrence lookup: Python builds a `dict` from the parsed members,
so a later duplicate key overwrites an earlier one. -/
def objGetLast : JsonObj → String → Option Json
  | .nil, _ => none
  | .cons k v tl, key =>
    match objGetLast tl key with
    | some w => some w
    | none => if k = key then some v else none

/-! ## Data model (`pydantic` models `Group`, `DemoUser`, `UserInDB`) -/

structure Group where
  type : String
  id : String
  name : String
deriving DecidableEq

structure DemoUser where
  id : String
  email : String
  role : String
  groups : List Group
deriving DecidableEq

structure UserInDB where
  id : String
  email : String
  password : String
  role : String
  groups : List Group
deriving DecidableEq

/-- The fallback value of `JWT_SECRET` when the environment variable is
unset.  The secret itself is an explicit parameter below. -/
def JWT_SECRET_fallback : String := "demo-secret-key"

/-! ## Credential store and check -/

/-- `simple_hash`: single-round SHA-256 of the UTF-8 password bytes,
lowercase hex. -/
def simple_hash (password : String) : String :=
  String.mk (bytesToHexChars (sha256Bytes (utf8Encode password)))

/-- `verify_simple_password`. -/
def verify_simple_password (plain_password hashed_password : String) : Bool :=
  simple_hash plain_password == hashed_password

/-- The fixed two-record demo credential store. -/
def demo_users_db : List UserInDB :=
  [⟨"user-1", "admin@example.com", simple_hash "password123", "admin",
    [⟨"team", "team-1", "Engineering"⟩, ⟨"organization", "org-1", "Acme Corp"⟩]⟩,
   ⟨"user-2", "user@example.com", simple_hash "userpass", "user",
    [⟨"team", "team-1", "Engineering"⟩]⟩]

/-- `get_user_by_email`: first record with an exactly matching email. -/
def get_user_by_email (email : String) : Option UserInDB :=
  demo_users_db.find? (fun u => u.email == email)

/-- `authenticate_user`. -/
def authenticate_user (email password : String) : Option DemoUser :=
  match get_user_by_email email with
  | none => none
  | some user_db =>
    if verify_simple_password password user_db.password then
      some ⟨user_db.id, user_db.email, user_db.role, user_db.groups⟩
    else none

/-! ## Token issuance (`create_simple_jwt`) -/

/-- The `groups` claim: `[group.model_dump() for group in user.groups]`,
each a `{type, id, name}` object in declaration order. -/
def groupsJson : List Group → JsonArr
  | [] => .nil
  | g :: gs =>
    .cons (.obj (.cons "type" (.str g.type) (.cons "id" (.str g.id)
      (.cons "name" (.str g.name) .nil)))) (groupsJson gs)

/-- The claim set built by `create_simple_jwt`, keys in insertion order. -/
def payloadJson (user : DemoUser) (expire : Nat) : Json :=
  .obj (.cons "sub" (.str user.email)
       (.cons "userId" (.str user.id)
       (.cons "email" (.str user.email)
       (.cons "role" (.str user.role)
       (.cons "groups" (.arr (groupsJson user.groups))
       (.cons "exp" (.num expire) .nil))))))

/-- `base64.urlsafe_b64encode(json.dumps(payload).encode()).decode()`. -/
def jwtPayloadB64 (user : DemoUser) (expire : Nat) : List Char :=
  b64encodeChars (utf8EncodeList (dumpJson (payloadJson user expire)))

/-- `create_simple_jwt` with the process secret and the current time
(seconds) made explicit: `expire = now + 24h`, then
`payload_b64 + "." + hexdigest(HMAC-SHA256(secret, payload_b64))`. -/
def create_simple_jwt (secret : String) (now : Nat) (user : DemoUser) : String :=
  let payload_b64 := jwtPayloadB64 user (now + 86400)
  String.mk (payload_b64 ++ '.' :: hmacSha256HexChars secret payload_b64)

/-! ## Token verification (`verify_simple_jwt`) -/

/-- Pydantic string-field validation: only a JSON string passes. -/
def asStr : Json → Option String
  | .str s => some s
  | _ => none

/-- `Group(**group)`: `group` must be an object carrying string-valued
`type`, `id`, `name` (extra keys are ignored, pydantic default). -/
def groupOfJson : Json → Option Group
  | .obj kvs =>
    match (objGetLast kvs "type").bind asStr, (objGetLast kvs "id").bind asStr,
          (objGetLast kvs "name").bind asStr with
    | some t, some i, some n => some ⟨t, i, n⟩
    | _, _, _ => none
  | _ => none

def groupsOfArr : JsonArr → Option (List Group)
  | .nil => some []
  | .cons v tl =>
    match groupOfJson v, groupsOfArr tl with
    | some g, some gs => some (g :: gs)
    | _, _ => none

/-- `[Group(**group) for group in payload["groups"]]`.  Iterating an empty
dict or empty string yields no elements, hence an empty group list; any
other non-list iterand raises (→ `none`). -/
def groupsOfJson : Json → Option (List Group)
  | .arr xs => groupsOfArr xs
  | .obj .nil => some []
  | .str s => if s = "" then some [] else none
  | _ => none

/-- `payload.get("exp", 0)` followed by the numeric comparison: a number is
its value, a bool is its integer value (Python bools are ints), anything
else makes `<` raise a `TypeError` (→ `none`). -/
def jsonAsTime : Json → Option Nat
  | .num n => some n
  | .bool b => some (if b then 1 else 0)
  | _ => none

/-- The expiry value `payload.get("exp", 0)` as a timestamp. -/
def expOf (kvs : JsonObj) : Option Nat :=
  jsonAsTime ((objGetLast kvs "exp").getD (.num 0))

/-- Reconstruction of the `DemoUser` from the verified claim set:
`DemoUser(id=payload["userId"], email=payload["email"],
role=payload["role"], groups=[Group(**g) for g in payload["groups"]])`;
any missing key or failed pydantic validation raises (→ `none`). -/
def verifyUser (payload : JsonObj) : Option DemoUser :=
  match (objGetLast payload "userId").bind asStr, (objGetLast payload "email").bind asStr,
        (objGetLast payload "role").bind asStr, (objGetLast payload "groups").bind groupsOfJson with
  | some uid, some em, some rl, some gs => some ⟨uid, em, rl, gs⟩
  | _, _, _, _ => none

/-- Expiration check `payload.get("exp", 0) < utcnow().timestamp()`, then
user reconstruction. -/
def verifyPayload (now : Nat) (payload : JsonObj) : Option DemoUser :=
  match expOf payload with
  | none => none
  | some e => if e < now then none else verifyUser payload

/-- `payload = json.loads(payload_str)`: the claim set must be a JSON
object (attribute access on any other value raises, → `none`). -/
def verifyClaims (now : Nat) (payload_str : List Char) : Option DemoUser :=
  match parseJsonTop payload_str with
  | none => none
  | some (.obj payload) => verifyPayload now payload
  | some _ => none

/-- `payload_str = payload_bytes.decode()`. -/
def verifyBytes (now : Nat) (payload_bytes : List Nat) : Option DemoUser :=
  match utf8Decode payload_bytes with
  | none => none
  | some payload_str => verifyClaims now payload_str

/-- `payload_bytes = base64.urlsafe_b64decode(payload_b64)`. -/
def verifyDecode (now : Nat) (payload_b64 : List Char) : Option DemoUser :=
  match b64decodeChars payload_b64 with
  | none => none
  | some payload_bytes => verifyBytes now payload_bytes

/-- Signature comparison (`if signature != expected_signature: return None`),
then decoding.  The stages `verifyParts` … `verifyUser` are the straight-line
statements of the Python function body split at its sequential steps. -/
def verifyParts (secret : String) (now : Nat) (payload_b64 signature : List Char) :
    Option DemoUser :=
  if signature ≠ hmacSha256HexChars secret payload_b64 then none
  else verifyDecode now payload_b64

/-- `verify_simple_jwt` with the process secret and current time explicit;
every failure path of the Python `try`/bare-`except` collapses to `none`. -/
def verify_simple_jwt (secret : String) (now : Nat) (token : String) : Option DemoUser :=
  match splitOnChar '.' token.data with
  | [payload_b64, signature] => verifyParts secret now payload_b64 signature
  | _ => none

/-- A correctly signed token over a given claims text, as used by the
universally quantified verification claims. -/
def signedTokenOf (secret : String) (payload_str : List Char) : String :=
  let payload_b64 := b64encodeChars (utf8EncodeList payload_str)
  String.mk (payload_b64 ++ '.' :: hmacSha256HexChars secret payload_b64)

/-! ## Wire format per the specification (for the refinement claim C5) -/

/-- Spec-side JSON string rendering (shared escaping). -/
def specJsonString (s : String) : List Char := '"' :: escList s.data ++ ['"']

/-- Spec-side group object: `{"type": t, "id": i, "name": n}`. -/
def specGroupObj (g : Group) : List Char :=
  '{' :: "\"type\": ".data ++ specJsonString g.type ++ ", \"id\": ".data ++
    specJsonString g.id ++ ", \"name\": ".data ++ specJsonString g.name ++ ['}']

/-- Spec-side group array body. -/
def specGroupList : List Group → List Char
  | [] => []
  | [g] => specGroupObj g
  | g :: g2 :: rest => specGroupObj g ++ ',' :: ' ' :: specGroupList (g2 :: rest)

/-- Spec-side claim text, written out from the spec's wire format:
`{"sub": email, "userId": id, "email": email, "role": role,
"groups": [...], "exp": now+24h}`. -/
def specClaims (u : DemoUser) (expire : Nat) : List Char :=
  '{' :: "\"sub\": ".data ++ specJsonString u.email ++
  ", \"userId\": ".data ++ specJsonString u.id ++
  ", \"email\": ".data ++ specJsonString u.email ++
  ", \"role\": ".data ++ specJsonString u.role ++
  ", \"groups\": [".data ++ specGroupList u.groups ++
  "], \"exp\": ".data ++ natChars expire ++ ['}']

/-- Spec-side token: `base64url(json(claims)) + "." +
hex(HMAC-SHA256(secret, base64url_payload))` with a 24-hour expiry. -/
def specIssueToken (secret : String) (now : Nat) (u : DemoUser) : String :=
  let p := b64encodeChars (utf8EncodeList (specClaims u (now + 86400)))
  String.mk (p ++ '.' :: bytesToHexChars (hmacSha256 (utf8Encode secret) (utf8EncodeList p)))

/-! Parser-fuel measure of a JSON value (only used in proofs). -/

mutual

def fsize : Json → Nat
  | .arr xs => fsizeA xs + 1
  | .obj kvs => fsizeO kvs + 1
  | .null => 1
  | .bool _b => 1
  | .num _n => 1
  | .str _s => 1

def fsizeA : JsonArr → Nat
  | .nil => 0
  | .cons v tl => fsize v + fsizeA tl + 1

def fsizeO : JsonObj → Nat
  | .nil => 0
  | .cons _ v tl => fsize v + fsizeO tl + 1

end

/-- The identity of the first demo user, used as a concrete evaluation
input by the witnesses. -/
def adminUser : DemoUser :=
  ⟨"user-1", "admin@example.com", "admin",
   [⟨"team", "team-1", "Engineering"⟩, ⟨"organization", "org-1", "Acme Corp"⟩]⟩

/-! # Lemmas -/

/-- `List.getD` hits the list or the default. -/
theorem getD_mem_or {α : Type} (l : List α) (n : Nat) (d : α) :
    l.getD n d ∈ l ∨ l.getD n d = d := by
  by_cases h : n < l.length
  · rw [List.getD_eq_getElem l d h]
    exact Or.inl (List.getElem_mem h)
  · right
    simp [List.getD_eq_getElem?_getD, List.getElem?_eq_none (Nat.le_of_not_lt h)]

/-- Hex digits land in the hex table. -/
theorem hexChar_mem (n : Nat) : hexChar n ∈ "0123456789abcdef".data := by
  rcases getD_mem_or "0123456789abcdef".data n '0' with h | h
  · exact h
  · rw [hexChar, h]; decide

/-- Hex output never contains a dot. -/
theorem bytesToHexChars_no_dot (bs : List Nat) : '.' ∉ bytesToHexChars bs := by
  intro hmem
  rw [bytesToHexChars, List.mem_flatMap] at hmem
  obtain ⟨b, -, hb⟩ := hmem
  simp only [List.mem_cons, List.not_mem_nil, or_false] at hb
  rcases hb with h | h
  · exact absurd (h ▸ hexChar_mem (b / 16)) (by decide)
  · exact absurd (h ▸ hexChar_mem (b % 16)) (by decide)

/-- Base64 characters land in the alphabet table. -/
theorem b64Char_mem (n : Nat) :
    b64Char n ∈ "ABCDEFGHIJKLMNOPQRSTUVWXYZabcdefghijklmnopqrstuvwxyz0123456789-_".data := by
  rcases getD_mem_or
      "ABCDEFGHIJKLMNOPQRSTUVWXYZabcdefghijklmnopqrstuvwxyz0123456789-_".data n 'A' with h | h
  · exact h
  · rw [b64Char, h]; decide

/-- The plain alphabet embeds in the padded one. -/
theorem b64_table_sub :
    ∀ c ∈ "ABCDEFGHIJKLMNOPQRSTUVWXYZabcdefghijklmnopqrstuvwxyz0123456789-_".data,
      c ∈ "ABCDEFGHIJKLMNOPQRSTUVWXYZabcdefghijklmnopqrstuvwxyz0123456789-_=".data := by
  decide

/-- Every character of a base64 encoding is in the padded alphabet. -/
theorem b64encodeChars_mem (bs : List Nat) :
    ∀ c ∈ b64encodeChars bs,
      c ∈ "ABCDEFGHIJKLMNOPQRSTUVWXYZabcdefghijklmnopqrstuvwxyz0123456789-_=".data := by
  induction bs using b64encodeChars.induct with
  | case1 => intro c hc; simp [b64encodeChars] at hc
  | case2 a =>
    intro c hc
    simp only [b64encodeChars, List.mem_cons, List.not_mem_nil, or_false] at hc
    rcases hc with h | h | h | h <;> subst h
    · exact b64_table_sub _ (b64Char_mem (a / 4))
    · exact b64_table_sub _ (b64Char_mem (a % 4 * 16))
    · decide
    · decide
  | case3 a b =>
    intro c hc
    simp only [b64encodeChars, List.mem_cons, List.not_mem_nil, or_false] at hc
    rcases hc with h | h | h | h <;> subst h
    · exact b64_table_sub _ (b64Char_mem (a / 4))
    · exact b64_table_sub _ (b64Char_mem (a % 4 * 16 + b / 16))
    · exact b64_table_sub _ (b64Char_mem (b % 16 * 4))
    · decide
  | case4 a b cc rest ih =>
    intro c hc
    simp only [b64encodeChars, List.mem_cons] at hc
    rcases hc with h | h | h | h | h
    · subst h; exact b64_table_sub _ (b64Char_mem (a / 4))
    · subst h; exact b64_table_sub _ (b64Char_mem (a % 4 * 16 + b / 16))
    · subst h; exact b64_table_sub _ (b64Char_mem (b % 16 * 4 + cc / 64))
    · subst h; exact b64_table_sub _ (b64Char_mem (cc % 64))
    · exact ih c h

/-- Base64 output never contains a dot. -/
theorem b64encodeChars_no_dot (bs : List Nat) : '.' ∉ b64encodeChars bs := by
  intro hmem
  have := b64encodeChars_mem bs '.' hmem
  revert this; decide

/-! ### `splitOnChar` -/

theorem splitOnChar_ne_nil (sep : Char) (l : List Char) : splitOnChar sep l ≠ [] := by
  cases l with
  | nil => simp [splitOnChar]
  | cons c rest =>
    rw [splitOnChar]
    by_cases h : c = sep
    · simp [h]
    · simp only [if_neg h]
      cases splitOnChar sep rest <;> simp

theorem splitOnChar_no_sep {sep : Char} {l : List Char} (h : sep ∉ l) :
    splitOnChar sep l = [l] := by
  induction l with
  | nil => rfl
  | cons c rest ih =>
    rw [List.mem_cons, not_or] at h
    rw [splitOnChar, if_neg (fun hc => h.1 hc.symm), ih h.2]

theorem splitOnChar_append {sep : Char} {a : List Char} (rest : List Char) (h : sep ∉ a)
    {hd : List Char} {tl : List (List Char)} (hrest : splitOnChar sep rest = hd :: tl) :
    splitOnChar sep (a ++ rest) = (a ++ hd) :: tl := by
  induction a with
  | nil => simpa using hrest
  | cons c a2 ih =>
    rw [List.mem_cons, not_or] at h
    rw [List.cons_append, splitOnChar, if_neg (fun hc => h.1 hc.symm), ih h.2]
    rfl

/-- Splitting `p ++ "." ++ s` with dot-free `p` and `s` gives `[p, s]`. -/
theorem splitOnChar_two {sep : Char} {p s : List Char} (hp : sep ∉ p) (hs : sep ∉ s) :
    splitOnChar sep (p ++ sep :: s) = [p, s] := by
  have h1 : splitOnChar sep (sep :: s) = [] :: [s] := by
    rw [splitOnChar, if_pos rfl, splitOnChar_no_sep hs]
  have := splitOnChar_append (sep :: s) hp h1
  simpa using this

/-- The number of fragments is the separator count plus one. -/
theorem splitOnChar_length (sep : Char) (l : List Char) :
    (splitOnChar sep l).length = l.count sep + 1 := by
  induction l with
  | nil => simp [splitOnChar]
  | cons c rest ih =>
    rw [splitOnChar]
    by_cases h : c = sep
    · subst h
      simp [List.count_cons, ih]
    · rw [if_neg h]
      have hbeq : (c == sep) = false := by
        exact beq_false_of_ne h
      obtain ⟨hd, tl, heq⟩ : ∃ hd tl, splitOnChar sep rest = hd :: tl := by
        cases hsp : splitOnChar sep rest with
        | nil => exact absurd hsp (splitOnChar_ne_nil sep rest)
        | cons hd tl => exact ⟨hd, tl, rfl⟩
      rw [heq]
      have := ih
      rw [heq] at this
      simp only [List.length_cons] at this ⊢
      simp [List.count_cons, hbeq]
      omega

/-! ### UTF-8 -/

/-- Unicode scalar values: below the surrogate range or between it and
0x110000. -/
theorem char_toNat_valid (c : Char) :
    c.toNat < 55296 ∨ (57344 ≤ c.toNat ∧ c.toNat < 1114112) := by
  have h := c.valid
  rw [UInt32.isValidChar] at h
  rcases h with h | ⟨h1, h2⟩
  · exact Or.inl h
  · exact Or.inr ⟨h1, h2⟩

/-- UTF-8 bytes are bytes. -/
theorem utf8EncodeChar_lt (c : Char) : ∀ b ∈ utf8EncodeChar c, b < 256 := by
  intro b hb
  have hv := char_toNat_valid c
  rw [utf8EncodeChar] at hb
  by_cases h1 : c.toNat < 128
  · rw [if_pos h1] at hb
    simp only [List.mem_cons, List.not_mem_nil, or_false] at hb
    omega
  · rw [if_neg h1] at hb
    by_cases h2 : c.toNat < 2048
    · rw [if_pos h2] at hb
      simp only [List.mem_cons, List.not_mem_nil, or_false] at hb
      rcases hb with rfl | rfl <;> omega
    · rw [if_neg h2] at hb
      by_cases h3 : c.toNat < 65536
      · rw [if_pos h3] at hb
        simp only [List.mem_cons, List.not_mem_nil, or_false] at hb
        rcases hb with rfl | rfl | rfl <;> omega
      · rw [if_neg h3] at hb
        simp only [List.mem_cons, List.not_mem_nil, or_false] at hb
        rcases hb with rfl | rfl | rfl | rfl <;> omega

theorem utf8EncodeList_lt (cs : List Char) : ∀ b ∈ utf8EncodeList cs, b < 256 := by
  intro b hb
  rw [utf8EncodeList, List.mem_flatMap] at hb
  obtain ⟨c, -, hc⟩ := hb
  exact utf8EncodeChar_lt c b hc

/-- Every encoded scalar is at least one byte. -/
theorem utf8EncodeChar_ne_nil (c : Char) : utf8EncodeChar c ≠ [] := by
  rw [utf8EncodeChar]
  by_cases h1 : c.toNat < 128
  · rw [if_pos h1]; simp
  · rw [if_neg h1]
    by_cases h2 : c.toNat < 2048
    · rw [if_pos h2]; simp
    · rw [if_neg h2]
      by_cases h3 : c.toNat < 65536
      · rw [if_pos h3]; simp
      · rw [if_neg h3]; simp

/-- One step of strict decoding consumes exactly one encoded scalar. -/
theorem utf8Step_encodeChar (c : Char) (bs : List Nat) :
    utf8Step (utf8EncodeChar c ++ bs) = some (c, bs) := by
  have hv := char_toNat_valid c
  have hofNat : Char.ofNat c.toNat = c := Char.ofNat_toNat c
  rw [utf8EncodeChar]
  by_cases h1 : c.toNat < 128
  · rw [if_pos h1, List.cons_append, List.nil_append, utf8Step, if_pos h1, hofNat]
  · rw [if_neg h1]
    by_cases h2 : c.toNat < 2048
    · rw [if_pos h2, List.cons_append, List.cons_append, List.nil_append, utf8Step,
        if_neg (by omega), if_neg (by omega), if_pos (by omega), utf8Dec2,
        if_pos (by constructor <;> omega)]
      have : (192 + c.toNat / 64 - 192) * 64 + (128 + c.toNat % 64 - 128) = c.toNat := by omega
      rw [this, hofNat]
    · rw [if_neg h2]
      by_cases h3 : c.toNat < 65536
      · rw [if_pos h3, List.cons_append, List.cons_append, List.cons_append, List.nil_append,
          utf8Step, if_neg (by omega), if_neg (by omega), if_neg (by omega), if_pos (by omega),
          utf8Dec3]
        have hguard : utf8Guard3 (224 + c.toNat / 4096) (128 + c.toNat / 64 % 64) ∧
            utf8Cont (128 + c.toNat % 64) := by
          refine ⟨?_, by constructor <;> omega⟩
          rw [utf8Guard3]
          split
          · next heq => constructor <;> omega
          · split
            · next heq => constructor <;> omega
            · constructor <;> omega
        rw [if_pos hguard]
        have : (224 + c.toNat / 4096 - 224) * 4096 + (128 + c.toNat / 64 % 64 - 128) * 64 +
            (128 + c.toNat % 64 - 128) = c.toNat := by omega
        rw [this, hofNat]
      · rw [if_neg h3, List.cons_append, List.cons_append, List.cons_append, List.cons_append,
          List.nil_append, utf8Step, if_neg (by omega), if_neg (by omega), if_neg (by omega),
          if_neg (by omega), if_pos (by omega), utf8Dec4]
        have hguard : utf8Guard4 (240 + c.toNat / 262144) (128 + c.toNat / 4096 % 64) ∧
            utf8Cont (128 + c.toNat / 64 % 64) ∧ utf8Cont (128 + c.toNat % 64) := by
          refine ⟨?_, by constructor <;> omega, by constructor <;> omega⟩
          rw [utf8Guard4]
          split
          · next heq => constructor <;> omega
          · split
            · next heq => constructor <;> omega
            · constructor <;> omega
        rw [if_pos hguard]
        have : (240 + c.toNat / 262144 - 240) * 262144 + (128 + c.toNat / 4096 % 64 - 128) * 4096 +
            (128 + c.toNat / 64 % 64 - 128) * 64 + (128 + c.toNat % 64 - 128) = c.toNat := by
          omega
        rw [this, hofNat]

/-- The decoding loop inverts encoding, given enough fuel. -/
theorem utf8DecodeLoop_encodeList (cs : List Char) :
    ∀ f, (utf8EncodeList cs).length ≤ f → utf8DecodeLoop f (utf8EncodeList cs) = some cs := by
  induction cs with
  | nil => intro f _; rw [show utf8EncodeList [] = [] from rfl]; cases f <;> rfl
  | cons c rest ih =>
    intro f hf
    have hsplit : utf8EncodeList (c :: rest) = utf8EncodeChar c ++ utf8EncodeList rest :=
      List.flatMap_cons ..
    obtain ⟨b, t, hbt⟩ : ∃ b t, utf8EncodeChar c = b :: t := by
      cases h : utf8EncodeChar c with
      | nil => exact absurd h (utf8EncodeChar_ne_nil c)
      | cons b t => exact ⟨b, t, rfl⟩
    have hlen : 1 ≤ (utf8EncodeList (c :: rest)).length := by
      rw [hsplit, hbt]; simp
    obtain ⟨f2, rfl⟩ : ∃ f2, f = f2 + 1 := by
      rcases f with _ | f2
      · omega
      · exact ⟨f2, rfl⟩
    rw [hsplit, hbt, List.cons_append, utf8DecodeLoop, ← List.cons_append, ← hbt,
      utf8Step_encodeChar]
    have hrest : (utf8EncodeList rest).length ≤ f2 := by
      rw [hsplit, hbt] at hf
      simp only [List.cons_append, List.length_cons, List.length_append] at hf
      omega
    show (utf8DecodeLoop f2 (utf8EncodeList rest)).map (fun cs => c :: cs) = some (c :: rest)
    rw [ih f2 hrest]
    rfl

/-- UTF-8 round-trip: strict decoding inverts encoding. -/
theorem utf8Decode_encodeList (cs : List Char) :
    utf8Decode (utf8EncodeList cs) = some cs :=
  utf8DecodeLoop_encodeList cs _ (Nat.le_refl _)

/-! ### base64 round-trip -/

/-- The alphabet inverts on its 64 proper values. -/
theorem b64Val_b64Char : ∀ n < 64, b64Val (b64Char n) = some n := by decide

theorem b64Char_ne_pad : ∀ n < 64, b64Char n ≠ '=' := by decide

/-- Alphabet characters are ASCII. -/
theorem b64_table_ascii :
    ∀ c ∈ "ABCDEFGHIJKLMNOPQRSTUVWXYZabcdefghijklmnopqrstuvwxyz0123456789-_=".data,
      c.toNat ≤ 127 := by decide

/-- Alphabet characters survive the decoder filter. -/
theorem b64_table_filter :
    ∀ c ∈ "ABCDEFGHIJKLMNOPQRSTUVWXYZabcdefghijklmnopqrstuvwxyz0123456789-_=".data,
      ((b64Val c).isSome || c = '=') = true := by decide

/-- The decoding core inverts the encoder on byte inputs. -/
theorem b64decodeCore_encode {bs : List Nat} (h : ∀ b ∈ bs, b < 256) :
    b64decodeCore (b64encodeChars bs) = some bs := by
  induction bs using b64encodeChars.induct with
  | case1 => rfl
  | case2 a =>
    have ha : a < 256 := h a (by simp)
    rw [b64encodeChars, b64decodeCore, if_pos ⟨rfl, rfl, rfl⟩,
      b64Val_b64Char (a / 4) (by omega), b64Val_b64Char (a % 4 * 16) (by omega)]
    have hval : a / 4 * 4 + a % 4 * 16 / 16 = a := by omega
    show some [a / 4 * 4 + a % 4 * 16 / 16] = some [a]
    rw [hval]
  | case3 a b =>
    have ha : a < 256 := h a (by simp)
    have hb : b < 256 := h b (by simp)
    rw [b64encodeChars, b64decodeCore,
      if_neg (fun hco => b64Char_ne_pad (b % 16 * 4) (by omega) hco.1),
      if_pos ⟨rfl, rfl⟩, b64Val_b64Char (a / 4) (by omega),
      b64Val_b64Char (a % 4 * 16 + b / 16) (by omega), b64Val_b64Char (b % 16 * 4) (by omega)]
    have h1 : a / 4 * 4 + (a % 4 * 16 + b / 16) / 16 = a := by omega
    have h2 : (a % 4 * 16 + b / 16) % 16 * 16 + b % 16 * 4 / 4 = b := by omega
    show some [a / 4 * 4 + (a % 4 * 16 + b / 16) / 16,
      (a % 4 * 16 + b / 16) % 16 * 16 + b % 16 * 4 / 4] = some [a, b]
    rw [h1, h2]
  | case4 a b c rest ih =>
    have ha : a < 256 := h a (by simp)
    have hb : b < 256 := h b (by simp)
    have hc : c < 256 := h c (by simp)
    have hrest : ∀ x ∈ rest, x < 256 := fun x hx => h x (by simp [hx])
    rw [b64encodeChars, b64decodeCore,
      if_neg (fun hco => b64Char_ne_pad (b % 16 * 4 + c / 64) (by omega) hco.1),
      if_neg (fun hco => b64Char_ne_pad (c % 64) (by omega) hco.1),
      b64Val_b64Char (a / 4) (by omega), b64Val_b64Char (a % 4 * 16 + b / 16) (by omega),
      b64Val_b64Char (b % 16 * 4 + c / 64) (by omega), b64Val_b64Char (c % 64) (by omega),
      ih hrest]
    have h1 : a / 4 * 4 + (a % 4 * 16 + b / 16) / 16 = a := by omega
    have h2 : (a % 4 * 16 + b / 16) % 16 * 16 + (b % 16 * 4 + c / 64) / 4 = b := by omega
    have h3 : (b % 16 * 4 + c / 64) % 4 * 64 + c % 64 = c := by omega
    show some ((a / 4 * 4 + (a % 4 * 16 + b / 16) / 16) ::
      ((a % 4 * 16 + b / 16) % 16 * 16 + (b % 16 * 4 + c / 64) / 4) ::
      ((b % 16 * 4 + c / 64) % 4 * 64 + c % 64) :: rest) = some (a :: b :: c :: rest)
    rw [h1, h2, h3]

/-- base64 round-trip: URL-safe decoding inverts encoding on byte inputs. -/
theorem b64decodeChars_encode {bs : List Nat} (h : ∀ b ∈ bs, b < 256) :
    b64decodeChars (b64encodeChars bs) = some bs := by
  rw [b64decodeChars]
  rw [if_pos ?hascii]
  case hascii =>
    rw [List.all_eq_true]
    intro c hc
    have := b64encodeChars_mem bs c hc
    exact decide_eq_true (b64_table_ascii c this)
  rw [List.filter_eq_self.mpr (fun c hc => b64_table_filter c (b64encodeChars_mem bs c hc))]
  exact b64decodeCore_encode h

/-! ### Decimal numerals -/

theorem digitChar_digit (d : Nat) : isDigitChar (digitChar d) = true := by
  have htab : ∀ c ∈ "0123456789".data, isDigitChar c = true := by decide
  rcases getD_mem_or "0123456789".data d '0' with h | h
  · exact htab _ h
  · rw [digitChar, h]; decide

theorem digitChar_toNat : ∀ d < 10, (digitChar d).toNat = 48 + d := by decide

/-- The fuel used to render a numeral is irrelevant once sufficient. -/
theorem natDigitsAux_fuel (n : Nat) :
    ∀ f1 f2, n < f1 → n < f2 → natDigitsAux f1 n = natDigitsAux f2 n := by
  induction n using Nat.strong_induction_on with
  | _ n ih =>
    intro f1 f2 h1 h2
    obtain ⟨g1, rfl⟩ : ∃ g1, f1 = g1 + 1 := ⟨f1 - 1, by omega⟩
    obtain ⟨g2, rfl⟩ : ∃ g2, f2 = g2 + 1 := ⟨f2 - 1, by omega⟩
    rw [natDigitsAux, natDigitsAux]
    by_cases hn : n < 10
    · rw [if_pos hn, if_pos hn]
    · rw [if_neg hn, if_neg hn, ih (n / 10) (by omega) g1 g2 (by omega) (by omega)]

theorem natDigitsAux_digits (f : Nat) :
    ∀ n, n < f → ∀ c ∈ natDigitsAux f n, isDigitChar c = true := by
  induction f with
  | zero => intro n h; omega
  | succ g ih =>
    intro n h c hc
    rw [natDigitsAux] at hc
    by_cases hn : n < 10
    · rw [if_pos hn] at hc
      simp only [List.mem_cons, List.not_mem_nil, or_false] at hc
      rw [hc]; exact digitChar_digit n
    · rw [if_neg hn] at hc
      rcases List.mem_append.mp hc with h2 | h2
      · exact ih (n / 10) (by omega) c h2
      · simp only [List.mem_cons, List.not_mem_nil, or_false] at h2
        rw [h2]; exact digitChar_digit (n % 10)

theorem natChars_digits (n : Nat) : ∀ c ∈ natChars n, isDigitChar c = true :=
  natDigitsAux_digits (n + 1) n (Nat.lt_succ_self n)

theorem natChars_ne_nil (n : Nat) : natChars n ≠ [] := by
  rw [natChars, natDigitsAux]
  by_cases hn : n < 10
  · rw [if_pos hn]; simp
  · rw [if_neg hn]; simp

/-- Digit accumulation consumes exactly the digit block. -/
theorem digitsToNatAcc_append (ds : List Char) (hds : ∀ c ∈ ds, isDigitChar c = true)
    (acc : Nat) (rest : List Char)
    (hrest : ∀ c, rest.head? = some c → isDigitChar c = false) :
    digitsToNatAcc acc (ds ++ rest) =
      (ds.foldl (fun a c => a * 10 + (c.toNat - 48)) acc, rest) := by
  induction ds generalizing acc with
  | nil =>
    rw [List.nil_append, List.foldl_nil]
    cases rest with
    | nil => rfl
    | cons c r =>
      rw [digitsToNatAcc, if_neg (by rw [hrest c rfl]; exact Bool.false_ne_true)]
  | cons d ds2 ih =>
    rw [List.cons_append, digitsToNatAcc, if_pos (hds d (List.mem_cons_self d ds2)),
      List.foldl_cons]
    exact ih (fun c hc => hds c (List.mem_cons_of_mem d hc)) _

/-- Folding the digits of a numeral recovers the number. -/
theorem natDigitsAux_foldl (f : Nat) :
    ∀ n, n < f → ∀ acc,
      (natDigitsAux f n).foldl (fun a c => a * 10 + (c.toNat - 48)) acc =
        acc * 10 ^ (natDigitsAux f n).length + n := by
  induction f with
  | zero => intro n h; omega
  | succ g ih =>
    intro n h acc
    rw [natDigitsAux]
    by_cases hn : n < 10
    · rw [if_pos hn, List.foldl_cons, List.foldl_nil, List.length_cons, List.length_nil,
        digitChar_toNat n hn, pow_one]
      omega
    · rw [if_neg hn, List.foldl_append, List.foldl_cons, List.foldl_nil,
        ih (n / 10) (by omega) acc, List.length_append, List.length_cons, List.length_nil,
        digitChar_toNat (n % 10) (by omega), pow_succ, ← Nat.mul_assoc]
      generalize acc * 10 ^ (natDigitsAux g (n / 10)).length = k
      omega

/-- Parsing the rendered numeral (first digit pre-consumed, as `parseValue`
does) recovers the number and the remainder. -/
theorem natChars_parse (n : Nat) {c : Char} {ds rest : List Char}
    (hsplit : natChars n = c :: ds)
    (hrest : ∀ x, rest.head? = some x → isDigitChar x = false) :
    digitsToNatAcc (c.toNat - 48) (ds ++ rest) = (n, rest) := by
  have hds : ∀ x ∈ ds, isDigitChar x = true := by
    intro x hx
    exact natChars_digits n x (hsplit ▸ List.mem_cons_of_mem c hx)
  rw [digitsToNatAcc_append ds hds _ rest hrest]
  have hfold : (c :: ds).foldl (fun a x => a * 10 + (x.toNat - 48)) 0 = n := by
    rw [← hsplit, natChars, natDigitsAux_foldl (n + 1) n (Nat.lt_succ_self n) 0, Nat.zero_mul,
      Nat.zero_add]
  rw [List.foldl_cons, Nat.zero_mul, Nat.zero_add] at hfold
  rw [hfold]

/-! ### Hex escapes -/

theorem parseHexDig_hexChar : ∀ d < 16, parseHexDig (hexChar d) = some d := by decide

theorem parse4Hex_hex4 (n : Nat) (h : n < 65536) :
    parse4Hex (hexChar (n / 4096 % 16)) (hexChar (n / 256 % 16)) (hexChar (n / 16 % 16))
      (hexChar (n % 16)) = some n := by
  rw [parse4Hex, parseHexDig_hexChar (n / 4096 % 16) (by omega),
    parseHexDig_hexChar (n / 256 % 16) (by omega), parseHexDig_hexChar (n / 16 % 16) (by omega),
    parseHexDig_hexChar (n % 16) (by omega)]
  show some (n / 4096 % 16 * 4096 + n / 256 % 16 * 256 + n / 16 % 16 * 16 + n % 16) = some n
  have : n / 4096 % 16 * 4096 + n / 256 % 16 * 256 + n / 16 % 16 * 16 + n % 16 = n := by omega
  rw [this]

/-! ### JSON string escaping round-trip -/

theorem escChar_ne_nil (c : Char) : escChar c ≠ [] := by
  rw [escChar]
  by_cases h1 : c = '"'
  · rw [if_pos h1]; simp
  · rw [if_neg h1]
    by_cases h2 : c = '\\'
    · rw [if_pos h2]; simp
    · rw [if_neg h2]
      by_cases h3 : c.toNat = 10
      · rw [if_pos h3]; simp
      · rw [if_neg h3]
        by_cases h4 : c.toNat = 13
        · rw [if_pos h4]; simp
        · rw [if_neg h4]
          by_cases h5 : c.toNat = 9
          · rw [if_pos h5]; simp
          · rw [if_neg h5]
            by_cases h6 : c.toNat = 8
            · rw [if_pos h6]; simp
            · rw [if_neg h6]
              by_cases h7 : c.toNat = 12
              · rw [if_pos h7]; simp
              · rw [if_neg h7]
                by_cases h8 : c.toNat < 32 ∨ 127 ≤ c.toNat
                · rw [if_pos h8]
                  by_cases h9 : c.toNat < 65536
                  · rw [if_pos h9]; simp
                  · rw [if_neg h9]; simp
                · rw [if_neg h8]; simp

/-- `parseUEsc` inverts a BMP `\uXXXX` escape. -/
theorem parseUEsc_hex4 (n : Nat) (hn : n < 65536) (hsur : n < 55296 ∨ 57344 ≤ n)
    (rest : List Char) :
    parseUEsc (hex4 n ++ rest) = some (.oneChar (Char.ofNat n), rest) := by
  rw [hex4, List.cons_append, List.cons_append, List.cons_append, List.cons_append,
    List.nil_append, parseUEsc, parse4Hex_hex4 n hn]
  simp only [Option.some_bind]
  rw [if_pos hsur]

/-- `parseLowSur` inverts a low-surrogate `\uXXXX` escape. -/
theorem parseLowSur_hex4 (n k : Nat) (hk1 : 56320 ≤ k) (hk2 : k < 57344) (rest : List Char) :
    parseLowSur n ('\\' :: 'u' :: (hex4 k ++ rest)) =
      some (.oneChar (Char.ofNat (65536 + (n - 55296) * 1024 + (k - 56320))), rest) := by
  rw [hex4]
  simp only [List.cons_append, List.nil_append]
  rw [parseLowSur, if_pos ⟨rfl, rfl⟩, parse4Hex_hex4 k (by omega)]
  simp only [Option.some_bind]
  rw [if_pos ⟨hk1, hk2⟩]

/-- `parseUEsc` inverts a surrogate pair. -/
theorem parseUEsc_surPair (hi k : Nat) (hhi1 : 55296 ≤ hi) (hhi2 : hi < 56320)
    (hk1 : 56320 ≤ k) (hk2 : k < 57344) (rest : List Char) :
    parseUEsc (hex4 hi ++ ('\\' :: 'u' :: (hex4 k ++ rest))) =
      some (.oneChar (Char.ofNat (65536 + (hi - 55296) * 1024 + (k - 56320))), rest) := by
  rw [hex4]
  simp only [List.cons_append, List.nil_append]
  rw [parseUEsc, parse4Hex_hex4 hi (by omega)]
  simp only [Option.some_bind]
  rw [if_neg (by omega), if_pos (by omega), parseLowSur_hex4 hi k hk1 hk2 rest]

/-- `parseStrTok` inverts `escChar`. -/
theorem parseStrTok_escChar (c : Char) (rest : List Char) :
    parseStrTok (escChar c ++ rest) = some (.oneChar c, rest) := by
  have hv := char_toNat_valid c
  have hofNat : Char.ofNat c.toNat = c := Char.ofNat_toNat c
  rw [escChar]
  by_cases h1 : c = '"'
  · rw [if_pos h1, List.cons_append, List.cons_append, List.nil_append, parseStrTok,
      if_neg (by decide), if_pos rfl, parseEsc, if_pos rfl, h1]
  · rw [if_neg h1]
    by_cases h2 : c = '\\'
    · rw [if_pos h2, List.cons_append, List.cons_append, List.nil_append, parseStrTok,
        if_neg (by decide), if_pos rfl, parseEsc, if_neg (by decide), if_pos rfl, h2]
    · rw [if_neg h2]
      by_cases h3 : c.toNat = 10
      · rw [if_pos h3, List.cons_append, List.cons_append, List.nil_append, parseStrTok,
          if_neg (by decide), if_pos rfl, parseEsc, if_neg (by decide), if_neg (by decide),
          if_neg (by decide), if_neg (by decide), if_neg (by decide), if_pos rfl,
          show (10 : Nat) = c.toNat from h3.symm, hofNat]
      · rw [if_neg h3]
        by_cases h4 : c.toNat = 13
        · rw [if_pos h4, List.cons_append, List.cons_append, List.nil_append, parseStrTok,
            if_neg (by decide), if_pos rfl, parseEsc, if_neg (by decide), if_neg (by decide),
            if_neg (by decide), if_neg (by decide), if_neg (by decide), if_neg (by decide),
            if_pos rfl, show (13 : Nat) = c.toNat from h4.symm, hofNat]
        · rw [if_neg h4]
          by_cases h5 : c.toNat = 9
          · rw [if_pos h5, List.cons_append, List.cons_append, List.nil_append, parseStrTok,
              if_neg (by decide), if_pos rfl, parseEsc, if_neg (by decide), if_neg (by decide),
              if_neg (by decide), if_neg (by decide), if_neg (by decide), if_neg (by decide),
              if_neg (by decide), if_pos rfl, show (9 : Nat) = c.toNat from h5.symm, hofNat]
          · rw [if_neg h5]
            by_cases h6 : c.toNat = 8
            · rw [if_pos h6, List.cons_append, List.cons_append, List.nil_append, parseStrTok,
                if_neg (by decide), if_pos rfl, parseEsc, if_neg (by decide), if_neg (by decide),
                if_neg (by decide), if_pos rfl, show (8 : Nat) = c.toNat from h6.symm, hofNat]
            · rw [if_neg h6]
              by_cases h7 : c.toNat = 12
              · rw [if_pos h7, List.cons_append, List.cons_append, List.nil_append, parseStrTok,
                  if_neg (by decide), if_pos rfl, parseEsc, if_neg (by decide),
                  if_neg (by decide), if_neg (by decide), if_neg (by decide), if_pos rfl,
                  show (12 : Nat) = c.toNat from h7.symm, hofNat]
              · rw [if_neg h7]
                by_cases h8 : c.toNat < 32 ∨ 127 ≤ c.toNat
                · rw [if_pos h8]
                  by_cases h9 : c.toNat < 65536
                  · rw [if_pos h9, List.cons_append, List.cons_append,
                      parseStrTok, if_neg (by decide), if_pos rfl, parseEsc,
                      if_neg (by decide), if_neg (by decide), if_neg (by decide),
                      if_neg (by decide), if_neg (by decide), if_neg (by decide),
                      if_neg (by decide), if_neg (by decide), if_pos rfl,
                      parseUEsc_hex4 c.toNat h9 (by omega) rest, hofNat]
                  · rw [if_neg h9]
                    simp only [List.cons_append, List.append_assoc, List.nil_append]
                    rw [parseStrTok, if_neg (by decide), if_pos rfl, parseEsc,
                      if_neg (by decide), if_neg (by decide), if_neg (by decide),
                      if_neg (by decide), if_neg (by decide), if_neg (by decide),
                      if_neg (by decide), if_neg (by decide), if_pos rfl,
                      parseUEsc_surPair (55296 + (c.toNat - 65536) / 1024)
                        (56320 + (c.toNat - 65536) % 1024) (by omega) (by omega) (by omega)
                        (by omega) rest]
                    have harith : 65536 + (55296 + (c.toNat - 65536) / 1024 - 55296) * 1024 +
                        (56320 + (c.toNat - 65536) % 1024 - 56320) = c.toNat := by omega
                    rw [harith, hofNat]
                · rw [if_neg h8, List.cons_append, List.nil_append, parseStrTok,
                    if_neg (fun he => h1 he), if_neg (fun he => h2 he), if_neg (by omega)]

/-- The string-body loop inverts `escList`, given enough fuel. -/
theorem parseStrLoop_escList (cs : List Char) :
    ∀ f (rest : List Char), (escList cs).length + 1 ≤ f →
      parseStrLoop f (escList cs ++ '"' :: rest) = some (cs, rest) := by
  induction cs with
  | nil =>
    intro f rest hf
    obtain ⟨g, rfl⟩ : ∃ g, f = g + 1 := ⟨f - 1, by omega⟩
    rw [show escList [] = [] from rfl, List.nil_append, parseStrLoop, parseStrTok, if_pos rfl]
  | cons c cs2 ih =>
    intro f rest hf
    have hsplit : escList (c :: cs2) = escChar c ++ escList cs2 := List.flatMap_cons ..
    have hlen : 1 ≤ (escChar c).length := by
      cases h : escChar c with
      | nil => exact absurd h (escChar_ne_nil c)
      | cons x t => simp
    rw [hsplit] at hf ⊢
    rw [List.length_append] at hf
    obtain ⟨g, rfl⟩ : ∃ g, f = g + 1 := ⟨f - 1, by omega⟩
    rw [List.append_assoc, parseStrLoop, parseStrTok_escChar c (escList cs2 ++ '"' :: rest)]
    show (parseStrLoop g (escList cs2 ++ '"' :: rest)).map (fun p => (c :: p.1, p.2)) =
      some (c :: cs2, rest)
    rw [ih g rest (by omega)]
    rfl

/-- JSON string round-trip: parsing the escaped body recovers the original
characters and the remainder past the closing quote. -/
theorem parseStrBody_escList (cs : List Char) (rest : List Char) :
    parseStrBody (escList cs ++ '"' :: rest) = some (cs, rest) := by
  rw [parseStrBody]
  exact parseStrLoop_escList cs _ rest (by simp)

/-! ### JSON round-trip -/

theorem char_toNat_inj {a b : Char} (h : a.toNat = b.toNat) : a = b :=
  Char.eq_of_val_eq (UInt32.toNat.inj h)

theorem digit_toNat {c : Char} (hc : isDigitChar c = true) :
    48 ≤ c.toNat ∧ c.toNat ≤ 57 := by
  rw [isDigitChar, Bool.and_eq_true, decide_eq_true_eq, decide_eq_true_eq] at hc
  exact hc

/-- A digit is not any of the value-dispatch characters. -/
theorem digit_head_ne {c : Char} (hc : isDigitChar c = true) :
    c ≠ '"' ∧ c ≠ '[' ∧ c ≠ '{' ∧ c ≠ 't' ∧ c ≠ 'f' ∧ c ≠ 'n' := by
  have hb := digit_toNat hc
  refine ⟨?_, ?_, ?_, ?_, ?_, ?_⟩ <;> intro h <;> rw [h] at hb <;> revert hb <;> decide

theorem isJsonWs_of_digit {c : Char} (hc : isDigitChar c = true) : isJsonWs c = false := by
  have hb := digit_toNat hc
  rw [isJsonWs]
  have h1 : c ≠ ' ' := fun h => by rw [h] at hb; revert hb; decide
  have h2 : c ≠ '\t' := fun h => by rw [h] at hb; revert hb; decide
  have h3 : c ≠ '\n' := fun h => by rw [h] at hb; revert hb; decide
  have h4 : c ≠ '\r' := fun h => by rw [h] at hb; revert hb; decide
  simp [h1, h2, h3, h4]

theorem skipWs_cons_of_not_ws {d : Char} (hd : isJsonWs d = false) (l : List Char) :
    skipWs (d :: l) = d :: l := by
  rw [skipWs, List.dropWhile_cons, hd]
  simp

theorem skipWs_space (l : List Char) : skipWs (' ' :: l) = skipWs l := by
  rw [skipWs, List.dropWhile_cons]
  simp [isJsonWs, skipWs]

/-- Every serialized value starts with a non-whitespace, non-delimiter
character. -/
theorem dumpJson_head (v : Json) :
    ∃ d t, dumpJson v = d :: t ∧ isJsonWs d = false ∧ d ≠ ']' ∧ d ≠ '}' ∧ d ≠ ',' := by
  cases v with
  | null => exact ⟨'n', _, rfl, by decide, by decide, by decide, by decide⟩
  | bool b =>
    cases b with
    | true => exact ⟨'t', _, rfl, by decide, by decide, by decide, by decide⟩
    | false => exact ⟨'f', _, rfl, by decide, by decide, by decide, by decide⟩
  | num n =>
    obtain ⟨c, ds, hsplit⟩ : ∃ c ds, natChars n = c :: ds := by
      cases h : natChars n with
      | nil => exact absurd h (natChars_ne_nil n)
      | cons c ds => exact ⟨c, ds, rfl⟩
    have hc : isDigitChar c = true := natChars_digits n c (hsplit ▸ List.mem_cons_self c ds)
    have hb := digit_toNat hc
    refine ⟨c, ds, by rw [dumpJson, hsplit], isJsonWs_of_digit hc, ?_, ?_, ?_⟩ <;>
      intro h <;> rw [h] at hb <;> revert hb <;> decide
  | str s =>
    exact ⟨'"', escList s.data ++ ['"'], by rw [dumpJson]; rfl,
      by decide, by decide, by decide, by decide⟩
  | arr xs =>
    exact ⟨'[', dumpElems xs ++ [']'], by rw [dumpJson]; rfl,
      by decide, by decide, by decide, by decide⟩
  | obj kvs =>
    exact ⟨'{', dumpMembers kvs ++ ['}'], by rw [dumpJson]; rfl,
      by decide, by decide, by decide, by decide⟩

mutual

theorem fsize_le_dump (v : Json) : fsize v ≤ (dumpJson v).length := by
  cases v with
  | null => decide
  | bool b => cases b <;> decide
  | num n =>
    rw [fsize, dumpJson]
    have := natChars_ne_nil n
    cases h : natChars n with
    | nil => exact absurd h this
    | cons c ds => simp
  | str s =>
    rw [fsize, dumpJson]
    simp
  | arr xs =>
    rw [fsize, dumpJson]
    have := fsizeA_le_dumpElems xs
    simp only [List.length_cons, List.length_append, List.length_cons, List.length_nil]
    omega
  | obj kvs =>
    rw [fsize, dumpJson]
    have := fsizeO_le_dumpMembers kvs
    simp only [List.length_cons, List.length_append, List.length_cons, List.length_nil]
    omega

theorem fsizeA_le_dumpElems (xs : JsonArr) : fsizeA xs ≤ (dumpElems xs).length + 1 := by
  cases xs with
  | nil => decide
  | cons v tl =>
    cases tl with
    | nil =>
      rw [fsizeA, fsizeA, dumpElems]
      have := fsize_le_dump v
      omega
    | cons w tl2 =>
      rw [fsizeA, dumpElems]
      have h1 := fsize_le_dump v
      have h2 := fsizeA_le_dumpElems (JsonArr.cons w tl2)
      simp only [List.length_append, List.length_cons]
      omega

theorem fsizeO_le_dumpMembers (kvs : JsonObj) : fsizeO kvs ≤ (dumpMembers kvs).length + 1 := by
  cases kvs with
  | nil => decide
  | cons k v tl =>
    cases tl with
    | nil =>
      rw [fsizeO, fsizeO, dumpMembers]
      have := fsize_le_dump v
      simp only [List.length_cons, List.length_append]
      omega
    | cons k2 v2 tl2 =>
      rw [fsizeO, dumpMembers]
      have h1 := fsize_le_dump v
      have h2 := fsizeO_le_dumpMembers (JsonObj.cons k2 v2 tl2)
      simp only [List.length_append, List.length_cons]
      omega

end

theorem fsize_pos (v : Json) : 1 ≤ fsize v := by
  cases v <;> rw [fsize] <;> omega

/-- The JSON parser inverts the serializer, given enough fuel: simultaneously
for values, nonempty element lists, and nonempty member lists. -/
theorem json_parse_dump : ∀ f : Nat,
    (∀ (v : Json) (rest : List Char), fsize v ≤ f →
      (∀ x, rest.head? = some x → isDigitChar x = false) →
      parseValue f (dumpJson v ++ rest) = some (v, rest)) ∧
    (∀ (v : Json) (tl : JsonArr) (rest : List Char), fsizeA (JsonArr.cons v tl) ≤ f →
      parseElems f (dumpElems (JsonArr.cons v tl) ++ ']' :: rest) =
        some (JsonArr.cons v tl, rest)) ∧
    (∀ (k : String) (v : Json) (tl : JsonObj) (rest : List Char),
      fsizeO (JsonObj.cons k v tl) ≤ f →
      parseMembers f (dumpMembers (JsonObj.cons k v tl) ++ '}' :: rest) =
        some (JsonObj.cons k v tl, rest)) := by
  intro f
  induction f using Nat.strong_induction_on with
  | _ f ih =>
    refine ⟨?_, ?_, ?_⟩
    · -- values
      intro v rest hf hrest
      obtain ⟨g, rfl⟩ : ∃ g, f = g + 1 := ⟨f - 1, by have := fsize_pos v; omega⟩
      cases v with
      | null =>
        rw [dumpJson, show ("null" : String).data = 'n' :: 'u' :: 'l' :: 'l' :: [] from rfl]
        simp only [List.cons_append, List.nil_append]
        rw [parseValue, if_neg (by decide), if_neg (by decide), if_neg (by decide),
          if_neg (by decide), if_neg (by decide), if_pos rfl, dropLit, if_pos rfl, dropLit,
          if_pos rfl, dropLit, if_pos rfl, dropLit, Option.map_some']
      | bool b =>
        cases b with
        | true =>
          rw [dumpJson, show ("true" : String).data = 't' :: 'r' :: 'u' :: 'e' :: [] from rfl]
          simp only [List.cons_append, List.nil_append]
          rw [parseValue, if_neg (by decide), if_neg (by decide), if_neg (by decide),
            if_pos rfl, dropLit, if_pos rfl, dropLit, if_pos rfl, dropLit, if_pos rfl, dropLit,
            Option.map_some']
        | false =>
          rw [dumpJson,
            show ("false" : String).data = 'f' :: 'a' :: 'l' :: 's' :: 'e' :: [] from rfl]
          simp only [List.cons_append, List.nil_append]
          rw [parseValue, if_neg (by decide), if_neg (by decide), if_neg (by decide),
            if_neg (by decide), if_pos rfl, dropLit, if_pos rfl, dropLit, if_pos rfl, dropLit,
            if_pos rfl, dropLit, if_pos rfl, dropLit, Option.map_some']
      | num n =>
        obtain ⟨c, ds, hsplit⟩ : ∃ c ds, natChars n = c :: ds := by
          cases h : natChars n with
          | nil => exact absurd h (natChars_ne_nil n)
          | cons c ds => exact ⟨c, ds, rfl⟩
        have hc : isDigitChar c = true := natChars_digits n c (hsplit ▸ List.mem_cons_self c ds)
        obtain ⟨hn1, hn2, hn3, hn4, hn5, hn6⟩ := digit_head_ne hc
        rw [dumpJson, hsplit, List.cons_append, parseValue, if_neg hn1, if_neg hn2, if_neg hn3,
          if_neg hn4, if_neg hn5, if_neg hn6, if_pos hc, natChars_parse n hsplit hrest]
      | str s =>
        rw [dumpJson]
        simp only [List.cons_append, List.append_assoc, List.nil_append]
        rw [parseValue, if_pos rfl, parseStrBody_escList, Option.map_some']
      | arr xs =>
        cases xs with
        | nil =>
          rw [dumpJson, dumpElems]
          simp only [List.cons_append, List.nil_append]
          rw [parseValue, if_neg (by decide), if_pos rfl,
            skipWs_cons_of_not_ws (by decide), List.head?_cons, if_pos rfl]
          rfl
        | cons v2 tl =>
          rw [dumpJson]
          simp only [List.cons_append, List.append_assoc, List.nil_append]
          obtain ⟨d, t, hd_eq, hdws, hdr, hdb, hdc⟩ := dumpJson_head v2
          obtain ⟨T, hT⟩ :
              ∃ T, dumpElems (JsonArr.cons v2 tl) ++ ']' :: rest = d :: T := by
            cases tl with
            | nil => exact ⟨t ++ ']' :: rest, by rw [dumpElems, hd_eq, List.cons_append]⟩
            | cons w tl2 =>
              exact ⟨t ++ ',' :: ' ' :: dumpElems (JsonArr.cons w tl2) ++ ']' :: rest,
                by rw [dumpElems, hd_eq]; simp [List.cons_append, List.append_assoc]⟩
          rw [parseValue, if_neg (by decide), if_pos rfl, hT,
            skipWs_cons_of_not_ws hdws, List.head?_cons,
            if_neg (fun h => hdr (Option.some.inj h)), ← hT,
            (ih g (by omega)).2.1 v2 tl rest (by rw [fsize] at hf; omega), Option.map_some']
      | obj kvs =>
        cases kvs with
        | nil =>
          rw [dumpJson, dumpMembers]
          simp only [List.cons_append, List.nil_append]
          rw [parseValue, if_neg (by decide), if_neg (by decide), if_pos rfl,
            skipWs_cons_of_not_ws (by decide), List.head?_cons, if_pos rfl]
          rfl
        | cons k v2 tl =>
          rw [dumpJson]
          simp only [List.cons_append, List.append_assoc, List.nil_append]
          obtain ⟨T, hT⟩ :
              ∃ T, dumpMembers (JsonObj.cons k v2 tl) ++ '}' :: rest = '"' :: T := by
            cases tl with
            | nil =>
              exact ⟨escList k.data ++ '"' :: ':' :: ' ' :: dumpJson v2 ++ '}' :: rest,
                by rw [dumpMembers]; simp [List.cons_append, List.append_assoc]⟩
            | cons k2 w tl2 =>
              refine ⟨escList k.data ++ '"' :: ':' :: ' ' :: dumpJson v2 ++
                ',' :: ' ' :: dumpMembers (JsonObj.cons k2 w tl2) ++ '}' :: rest, ?_⟩
              rw [dumpMembers]
              simp [List.cons_append, List.append_assoc]
          rw [parseValue, if_neg (by decide), if_neg (by decide), if_pos rfl, hT,
            skipWs_cons_of_not_ws (by decide), List.head?_cons, if_neg (by decide), ← hT,
            (ih g (by omega)).2.2 k v2 tl rest (by rw [fsize] at hf; omega), Option.map_some']
    · -- nonempty element lists
      intro v tl rest hf
      obtain ⟨g, rfl⟩ : ∃ g, f = g + 1 := ⟨f - 1, by rw [fsizeA] at hf; omega⟩
      cases tl with
      | nil =>
        rw [dumpElems, parseElems,
          (ih g (by omega)).1 v (']' :: rest)
            (by rw [fsizeA, fsizeA] at hf; omega)
            (fun x hx => by rw [List.head?_cons] at hx; rw [← Option.some.inj hx]; decide),
          Option.some_bind]
        rw [skipWs_cons_of_not_ws (by decide), List.head?_cons, if_neg (by decide), if_pos rfl]
        rfl
      | cons w tl2 =>
        rw [dumpElems]
        simp only [List.cons_append, List.append_assoc, List.nil_append]
        rw [parseElems,
          (ih g (by omega)).1 v (',' :: ' ' :: (dumpElems (JsonArr.cons w tl2) ++ ']' :: rest))
            (by rw [fsizeA] at hf; omega)
            (fun x hx => by rw [List.head?_cons] at hx; rw [← Option.some.inj hx]; decide),
          Option.some_bind]
        obtain ⟨d, t, hd_eq, hdws, hdr, hdb, hdc⟩ := dumpJson_head w
        obtain ⟨T, hT⟩ :
            ∃ T, dumpElems (JsonArr.cons w tl2) ++ ']' :: rest = d :: T := by
          cases tl2 with
          | nil => exact ⟨t ++ ']' :: rest, by rw [dumpElems, hd_eq, List.cons_append]⟩
          | cons w2 tl3 =>
            exact ⟨t ++ ',' :: ' ' :: dumpElems (JsonArr.cons w2 tl3) ++ ']' :: rest,
              by rw [dumpElems, hd_eq]; simp [List.cons_append, List.append_assoc]⟩
        rw [skipWs_cons_of_not_ws (by decide), List.head?_cons, if_pos rfl]
        show (parseElems g (skipWs (' ' :: (dumpElems (JsonArr.cons w tl2) ++ ']' :: rest)))).map
            (fun p => (JsonArr.cons v p.1, p.2)) = some (JsonArr.cons v (JsonArr.cons w tl2), rest)
        rw [skipWs_space, hT, skipWs_cons_of_not_ws hdws, ← hT,
          (ih g (by omega)).2.1 w tl2 rest (by rw [fsizeA] at hf; omega), Option.map_some']
    · -- nonempty member lists
      intro k v tl rest hf
      obtain ⟨g, rfl⟩ : ∃ g, f = g + 1 := ⟨f - 1, by rw [fsizeO] at hf; omega⟩
      cases tl with
      | nil =>
        rw [dumpMembers]
        simp only [List.cons_append, List.append_assoc, List.nil_append]
        rw [parseMembers, List.head?_cons, if_pos rfl]
        show (parseStrBody (escList k.data ++ '"' ::
            (':' :: ' ' :: (dumpJson v ++ '}' :: rest)))).bind _ = _
        rw [parseStrBody_escList, Option.some_bind,
          skipWs_cons_of_not_ws (by decide), List.head?_cons, if_pos rfl]
        show (parseValue g (skipWs (' ' :: (dumpJson v ++ '}' :: rest)))).bind _ = _
        obtain ⟨d, t, hd_eq, hdws, hdr, hdb, hdc⟩ := dumpJson_head v
        rw [skipWs_space, hd_eq, List.cons_append, skipWs_cons_of_not_ws hdws,
          ← List.cons_append, ← hd_eq,
          (ih g (by omega)).1 v ('}' :: rest)
            (by rw [fsizeO, fsizeO] at hf; omega)
            (fun x hx => by rw [List.head?_cons] at hx; rw [← Option.some.inj hx]; decide),
          Option.some_bind]
        rw [skipWs_cons_of_not_ws (by decide), List.head?_cons, if_neg (by decide), if_pos rfl]
        rfl
      | cons k2 w tl2 =>
        rw [dumpMembers]
        simp only [List.cons_append, List.append_assoc, List.nil_append]
        rw [parseMembers, List.head?_cons, if_pos rfl]
        show (parseStrBody (escList k.data ++ '"' :: (':' :: ' ' :: (dumpJson v ++
            ',' :: ' ' :: (dumpMembers (JsonObj.cons k2 w tl2) ++ '}' :: rest))))).bind _ = _
        rw [parseStrBody_escList, Option.some_bind,
          skipWs_cons_of_not_ws (by decide), List.head?_cons, if_pos rfl]
        show (parseValue g (skipWs (' ' :: (dumpJson v ++
            ',' :: ' ' :: (dumpMembers (JsonObj.cons k2 w tl2) ++ '}' :: rest))))).bind _ = _
        obtain ⟨d, t, hd_eq, hdws, hdr, hdb, hdc⟩ := dumpJson_head v
        rw [skipWs_space, hd_eq, List.cons_append, skipWs_cons_of_not_ws hdws,
          ← List.cons_append, ← hd_eq,
          (ih g (by omega)).1 v
            (',' :: ' ' :: (dumpMembers (JsonObj.cons k2 w tl2) ++ '}' :: rest))
            (by rw [fsizeO] at hf; omega)
            (fun x hx => by rw [List.head?_cons] at hx; rw [← Option.some.inj hx]; decide),
          Option.some_bind]
        rw [skipWs_cons_of_not_ws (by decide), List.head?_cons, if_pos rfl]
        obtain ⟨T, hT⟩ :
            ∃ T, dumpMembers (JsonObj.cons k2 w tl2) ++ '}' :: rest = '"' :: T := by
          cases tl2 with
          | nil =>
            exact ⟨escList k2.data ++ '"' :: ':' :: ' ' :: dumpJson w ++ '}' :: rest,
              by rw [dumpMembers]; simp [List.cons_append, List.append_assoc]⟩
          | cons k3 w2 tl3 =>
            refine ⟨escList k2.data ++ '"' :: ':' :: ' ' :: dumpJson w ++
              ',' :: ' ' :: dumpMembers (JsonObj.cons k3 w2 tl3) ++ '}' :: rest, ?_⟩
            rw [dumpMembers]
            simp [List.cons_append, List.append_assoc]
        show (parseMembers g (skipWs (' ' :: (dumpMembers (JsonObj.cons k2 w tl2) ++
            '}' :: rest)))).map _ = _
        rw [skipWs_space, hT, skipWs_cons_of_not_ws (by decide), ← hT,
          (ih g (by omega)).2.2 k2 w tl2 rest (by rw [fsizeO] at hf; omega), Option.map_some']

/-- `json.loads ∘ json.dumps` is the identity on JSON values. -/
theorem parseJsonTop_dump (v : Json) : parseJsonTop (dumpJson v) = some v := by
  rw [parseJsonTop]
  obtain ⟨d, t, hd_eq, hdws, -, -, -⟩ := dumpJson_head v
  have hns : skipWs (dumpJson v) = dumpJson v := by
    rw [hd_eq]
    exact skipWs_cons_of_not_ws hdws t
  have hpv := (json_parse_dump ((dumpJson v).length + 1)).1 v []
    (by have := fsize_le_dump v; omega) (fun x hx => by simp at hx)
  rw [List.append_nil] at hpv
  rw [hns, hpv]
  show (if skipWs [] = [] then some v else none) = some v
  rfl

/-- Group reconstruction inverts group serialization, in order. -/
theorem groupsOfArr_groupsJson (gs : List Group) : groupsOfArr (groupsJson gs) = some gs := by
  induction gs with
  | nil => rfl
  | cons g tl ih =>
    rw [groupsJson, groupsOfArr, ih]
    rfl

/-- Core lemma: a token issued at `now` verifies at any time `t` that is not
strictly past the expiry `now + 24h`, and returns the original identity. -/
theorem verify_create_core (secret : String) (now t : Nat) (u : DemoUser)
    (hexp : ¬ (now + 86400 < t)) :
    verify_simple_jwt secret t (create_simple_jwt secret now u) = some u := by
  have hPdot : '.' ∉ jwtPayloadB64 u (now + 86400) := b64encodeChars_no_dot _
  have hSdot : '.' ∉ hmacSha256HexChars secret (jwtPayloadB64 u (now + 86400)) :=
    bytesToHexChars_no_dot _
  have hdata : (create_simple_jwt secret now u).data =
      jwtPayloadB64 u (now + 86400) ++ '.' ::
        hmacSha256HexChars secret (jwtPayloadB64 u (now + 86400)) := rfl
  rw [verify_simple_jwt, hdata, splitOnChar_two hPdot hSdot]
  show verifyParts secret t (jwtPayloadB64 u (now + 86400))
    (hmacSha256HexChars secret (jwtPayloadB64 u (now + 86400))) = some u
  rw [verifyParts, if_neg (fun h => h rfl), jwtPayloadB64, verifyDecode,
    b64decodeChars_encode (utf8EncodeList_lt (dumpJson (payloadJson u (now + 86400))))]
  show verifyBytes t (utf8EncodeList (dumpJson (payloadJson u (now + 86400)))) = some u
  rw [verifyBytes, utf8Decode_encodeList]
  show verifyClaims t (dumpJson (payloadJson u (now + 86400))) = some u
  rw [verifyClaims, parseJsonTop_dump, payloadJson]
  show verifyPayload t
    (JsonObj.cons "sub" (.str u.email)
      (JsonObj.cons "userId" (.str u.id)
      (JsonObj.cons "email" (.str u.email)
      (JsonObj.cons "role" (.str u.role)
      (JsonObj.cons "groups" (.arr (groupsJson u.groups))
      (JsonObj.cons "exp" (.num (now + 86400)) JsonObj.nil)))))) = some u
  rw [verifyPayload,
    show expOf (JsonObj.cons "sub" (.str u.email)
      (JsonObj.cons "userId" (.str u.id)
      (JsonObj.cons "email" (.str u.email)
      (JsonObj.cons "role" (.str u.role)
      (JsonObj.cons "groups" (.arr (groupsJson u.groups))
      (JsonObj.cons "exp" (.num (now + 86400)) JsonObj.nil)))))) = some (now + 86400) from rfl]
  show (if now + 86400 < t then none else verifyUser
    (JsonObj.cons "sub" (.str u.email)
      (JsonObj.cons "userId" (.str u.id)
      (JsonObj.cons "email" (.str u.email)
      (JsonObj.cons "role" (.str u.role)
      (JsonObj.cons "groups" (.arr (groupsJson u.groups))
      (JsonObj.cons "exp" (.num (now + 86400)) JsonObj.nil))))))) = some u
  rw [if_neg hexp, verifyUser,
    show (objGetLast (JsonObj.cons "sub" (.str u.email)
      (JsonObj.cons "userId" (.str u.id)
      (JsonObj.cons "email" (.str u.email)
      (JsonObj.cons "role" (.str u.role)
      (JsonObj.cons "groups" (.arr (groupsJson u.groups))
      (JsonObj.cons "exp" (.num (now + 86400)) JsonObj.nil)))))) "groups").bind groupsOfJson =
      groupsOfArr (groupsJson u.groups) from rfl,
    groupsOfArr_groupsJson]
  rfl

/-- Setting a position puts the new character in the list. -/
theorem mem_set_self {l : List Char} {i : Nat} (c : Char) (h : i < l.length) :
    c ∈ l.set i c := by
  have h2 : i < (l.set i c).length := by simpa using h
  have h3 : (l.set i c)[i] = c := List.getElem_set_self h2
  have := List.getElem_mem h2
  rwa [h3] at this

/-- A token that does not split into exactly two parts is rejected. -/
theorem verify_none_of_count {token : String} (h : token.data.count '.' ≠ 1)
    (secret : String) (now : Nat) : verify_simple_jwt secret now token = none := by
  have hlen := splitOnChar_length '.' token.data
  cases hsp : splitOnChar '.' token.data with
  | nil => rw [verify_simple_jwt, hsp]
  | cons a tl =>
    cases tl with
    | nil => rw [verify_simple_jwt, hsp]
    | cons b tl2 =>
      cases tl2 with
      | nil =>
        rw [hsp] at hlen
        simp only [List.length_cons, List.length_nil] at hlen
        omega
      | cons c tl3 => rw [verify_simple_jwt, hsp]

/-- A two-part token whose second part is not the recomputed MAC of the
first is rejected. -/
theorem verify_none_of_sig {secret : String} {now : Nat} {p s : List Char}
    (hp : '.' ∉ p) (hs : '.' ∉ s) (hne : s ≠ hmacSha256HexChars secret p) :
    verify_simple_jwt secret now (String.mk (p ++ '.' :: s)) = none := by
  rw [verify_simple_jwt, show (String.mk (p ++ '.' :: s)).data = p ++ '.' :: s from rfl,
    splitOnChar_two hp hs]
  show verifyParts secret now p s = none
  rw [verifyParts, if_pos hne]

/-- Verifying a correctly signed token reduces to checking its claims. -/
theorem verify_signedTokenOf (secret : String) (now : Nat) (payload_str : List Char) :
    verify_simple_jwt secret now (signedTokenOf secret payload_str) =
      verifyClaims now payload_str := by
  have hPdot : '.' ∉ b64encodeChars (utf8EncodeList payload_str) := b64encodeChars_no_dot _
  have hSdot :
      '.' ∉ hmacSha256HexChars secret (b64encodeChars (utf8EncodeList payload_str)) :=
    bytesToHexChars_no_dot _
  have hdata : (signedTokenOf secret payload_str).data =
      b64encodeChars (utf8EncodeList payload_str) ++ '.' ::
        hmacSha256HexChars secret (b64encodeChars (utf8EncodeList payload_str)) := rfl
  rw [verify_simple_jwt, hdata, splitOnChar_two hPdot hSdot]
  show verifyParts secret now (b64encodeChars (utf8EncodeList payload_str))
    (hmacSha256HexChars secret (b64encodeChars (utf8EncodeList payload_str))) =
    verifyClaims now payload_str
  rw [verifyParts, if_neg (fun h => h rfl), verifyDecode,
    b64decodeChars_encode (utf8EncodeList_lt payload_str)]
  show verifyBytes now (utf8EncodeList payload_str) = verifyClaims now payload_str
  rw [verifyBytes, utf8Decode_encodeList]

/-- One serialized group object agrees with the spec-side text. -/
theorem dump_group (g : Group) :
    dumpJson (.obj (.cons "type" (.str g.type) (.cons "id" (.str g.id)
      (.cons "name" (.str g.name) .nil)))) = specGroupObj g := by
  simp only [dumpJson, dumpMembers, specGroupObj, specJsonString,
    show escList "type".data = 't' :: 'y' :: 'p' :: 'e' :: [] from by decide,
    show escList "id".data = 'i' :: 'd' :: [] from by decide,
    show escList "name".data = 'n' :: 'a' :: 'm' :: 'e' :: [] from by decide,
    show ("\"type\": " : String).data = '"' :: 't' :: 'y' :: 'p' :: 'e' :: '"' :: ':' :: ' ' :: []
      from rfl,
    show (", \"id\": " : String).data = ',' :: ' ' :: '"' :: 'i' :: 'd' :: '"' :: ':' :: ' ' :: []
      from rfl,
    show (", \"name\": " : String).data =
      ',' :: ' ' :: '"' :: 'n' :: 'a' :: 'm' :: 'e' :: '"' :: ':' :: ' ' :: [] from rfl,
    List.cons_append, List.nil_append, List.append_assoc]

/-- Serialized groups agree with the spec-side group-array text. -/
theorem dumpElems_groups (gs : List Group) :
    dumpElems (groupsJson gs) = specGroupList gs := by
  induction gs with
  | nil => rfl
  | cons g tl ih =>
    cases tl with
    | nil =>
      rw [groupsJson, groupsJson, dumpElems, dump_group, specGroupList]
    | cons g2 tl2 =>
      have hg2 : groupsJson (g2 :: tl2) =
          JsonArr.cons (.obj (.cons "type" (.str g2.type) (.cons "id" (.str g2.id)
            (.cons "name" (.str g2.name) .nil)))) (groupsJson tl2) := rfl
      rw [groupsJson, hg2, dumpElems, ← hg2, ih, dump_group, specGroupList]

/-- The serialized claim set agrees character-for-character with the
spec-side wire-format text. -/
theorem dump_payloadJson_spec (u : DemoUser) (expire : Nat) :
    dumpJson (payloadJson u expire) = specClaims u expire := by
  simp only [payloadJson, dumpJson, dumpMembers, specClaims, specJsonString, dumpElems_groups,
    show escList "sub".data = 's' :: 'u' :: 'b' :: [] from by decide,
    show escList "userId".data = 'u' :: 's' :: 'e' :: 'r' :: 'I' :: 'd' :: [] from by decide,
    show escList "email".data = 'e' :: 'm' :: 'a' :: 'i' :: 'l' :: [] from by decide,
    show escList "role".data = 'r' :: 'o' :: 'l' :: 'e' :: [] from by decide,
    show escList "groups".data = 'g' :: 'r' :: 'o' :: 'u' :: 'p' :: 's' :: [] from by decide,
    show escList "exp".data = 'e' :: 'x' :: 'p' :: [] from by decide,
    show ("\"sub\": " : String).data = '"' :: 's' :: 'u' :: 'b' :: '"' :: ':' :: ' ' :: []
      from rfl,
    show (", \"userId\": " : String).data =
      ',' :: ' ' :: '"' :: 'u' :: 's' :: 'e' :: 'r' :: 'I' :: 'd' :: '"' :: ':' :: ' ' :: []
      from rfl,
    show (", \"email\": " : String).data =
      ',' :: ' ' :: '"' :: 'e' :: 'm' :: 'a' :: 'i' :: 'l' :: '"' :: ':' :: ' ' :: [] from rfl,
    show (", \"role\": " : String).data =
      ',' :: ' ' :: '"' :: 'r' :: 'o' :: 'l' :: 'e' :: '"' :: ':' :: ' ' :: [] from rfl,
    show (", \"groups\": [" : String).data =
      ',' :: ' ' :: '"' :: 'g' :: 'r' :: 'o' :: 'u' :: 'p' :: 's' :: '"' :: ':' :: ' ' :: '[' :: []
      from rfl,
    show ("], \"exp\": " : String).data =
      ']' :: ',' :: ' ' :: '"' :: 'e' :: 'x' :: 'p' :: '"' :: ':' :: ' ' :: [] from rfl,
    List.cons_append, List.nil_append, List.append_assoc]

/-! # Claims -/

/-- C1: for every identity `u`, verifying the token issued at `now` under the
same secret, at any time `t` strictly before the expiry instant `now + 24h`,
succeeds and returns an identity equal to `u` in all fields, with the groups
in their original order. -/
theorem claim_C1_round_trip (secret : String) (now t : Nat) (u : DemoUser)
    (h : t < now + 86400) :
    verify_simple_jwt secret t (create_simple_jwt secret now u) = some u :=
  verify_create_core secret now t u (by omega)

theorem claim_C1_round_trip_witness :
    verify_simple_jwt JWT_SECRET_fallback 86399
      (create_simple_jwt JWT_SECRET_fallback 0 adminUser) = some adminUser :=
  claim_C1_round_trip JWT_SECRET_fallback 0 86399 adminUser (by decide)

/-- C2: changing any single character of a valid token, in either the claims
segment or the signature segment, to a different character makes verification
fail.  For a claims-segment change the failure rests on the recomputed
HMAC-SHA256 differing from the stored one (the cryptographic no-collision
hypothesis `hmacne`, discharged by computation in the witness); a
signature-segment change fails unconditionally. -/
theorem claim_C2_tamper (secret : String) (now t : Nat) (u : DemoUser) (i : Nat) (c : Char)
    (p s tok : List Char)
    (hp : p = jwtPayloadB64 u (now + 86400))
    (hs : s = hmacSha256HexChars secret p)
    (hcase :
      (i < p.length ∧ c ≠ p.getD i '.' ∧
        hmacSha256HexChars secret (p.set i c) ≠ s ∧ tok = p.set i c ++ '.' :: s) ∨
      (i < s.length ∧ c ≠ s.getD i '.' ∧ tok = p ++ '.' :: s.set i c)) :
    verify_simple_jwt secret t (String.mk tok) = none := by
  subst hp
  have hpdot : '.' ∉ jwtPayloadB64 u (now + 86400) := b64encodeChars_no_dot _
  have hsdot : '.' ∉ s := hs ▸ bytesToHexChars_no_dot _
  rcases hcase with ⟨hi, hc, hmacne, rfl⟩ | ⟨hi, hc, rfl⟩
  · by_cases hdotc : c = '.'
    · subst hdotc
      apply verify_none_of_count _ secret t
      show (((jwtPayloadB64 u (now + 86400)).set i '.' ++ '.' :: s).count '.') ≠ 1
      have h1 : 0 < ((jwtPayloadB64 u (now + 86400)).set i '.').count '.' :=
        List.count_pos_iff.mpr (mem_set_self '.' hi)
      have h2 : s.count '.' = 0 := List.count_eq_zero.mpr hsdot
      rw [List.count_append, List.count_cons_self, h2]
      omega
    · apply verify_none_of_sig _ hsdot (fun h => hmacne h.symm)
      intro hmem
      rcases List.mem_or_eq_of_mem_set hmem with h | h
      · exact hpdot h
      · exact hdotc h.symm
  · by_cases hdotc : c = '.'
    · subst hdotc
      apply verify_none_of_count _ secret t
      show (((jwtPayloadB64 u (now + 86400)) ++ '.' :: s.set i '.').count '.') ≠ 1
      have h1 : 0 < (s.set i '.').count '.' := List.count_pos_iff.mpr (mem_set_self '.' hi)
      have h2 : (jwtPayloadB64 u (now + 86400)).count '.' = 0 := List.count_eq_zero.mpr hpdot
      rw [List.count_append, List.count_cons_self, h2]
      omega
    · have hsne : s.set i c ≠ s := by
        intro heq
        have h2 : i < (s.set i c).length := by simpa using hi
        have h3 : (s.set i c)[i] = c := List.getElem_set_self h2
        simp only [heq] at h3
        exact hc (by rw [List.getD_eq_getElem s '.' hi, h3])
      have hsdot2 : '.' ∉ s.set i c := by
        intro hmem
        rcases List.mem_or_eq_of_mem_set hmem with h | h
        · exact hsdot h
        · exact hdotc h.symm
      exact verify_none_of_sig hpdot hsdot2 (hs ▸ hsne)

theorem claim_C2_tamper_witness :
    verify_simple_jwt JWT_SECRET_fallback 0
      (String.mk ((jwtPayloadB64 adminUser 86400).set 0 'X' ++ '.' ::
        hmacSha256HexChars JWT_SECRET_fallback (jwtPayloadB64 adminUser 86400))) = none :=
  claim_C2_tamper JWT_SECRET_fallback 0 0 adminUser 0 'X' _ _ _ rfl rfl
    (Or.inl ⟨by decide, by decide, by decide, rfl⟩)

/-- C3 counterexample: the claim says a token whose expiry equals the current
time is treated as expired, but the code's check is the strict `exp < now`;
at `now = 86400` a token issued at `0` (expiry exactly `86400`) still
verifies successfully. -/
theorem claim_C3_counterexample :
    verify_simple_jwt JWT_SECRET_fallback 86400
      (create_simple_jwt JWT_SECRET_fallback 0 adminUser) = some adminUser :=
  verify_create_core JWT_SECRET_fallback 0 86400 adminUser (by omega)

/-- C3 (amended): a correctly signed token whose expiry instant is exactly
the current time is NOT treated as expired: verification succeeds, because
the expiry failure condition is the strict `exp < now`. -/
theorem claim_C3_amended (secret : String) (now : Nat) (u : DemoUser) :
    verify_simple_jwt secret (now + 86400) (create_simple_jwt secret now u) = some u :=
  verify_create_core secret now (now + 86400) u (by omega)

/-- C4: a correctly signed, parseable token fails verification when the
expiry claim is absent (it defaults to 0, so any positive current time is
past it) or when its expiry instant is strictly earlier than the current
time. -/
theorem claim_C4_expiry (secret : String) (now : Nat) (payload_str : List Char)
    (kvs : JsonObj)
    (hparse : parseJsonTop payload_str = some (.obj kvs))
    (hexp : (objGetLast kvs "exp" = none ∧ 0 < now) ∨
            (∃ e, objGetLast kvs "exp" = some (.num e) ∧ e < now)) :
    verify_simple_jwt secret now (signedTokenOf secret payload_str) = none := by
  rw [verify_signedTokenOf, verifyClaims, hparse]
  show verifyPayload now kvs = none
  rw [verifyPayload]
  rcases hexp with ⟨habs, hnow⟩ | ⟨e, hsome, hlt⟩
  · rw [show expOf kvs = some 0 from by rw [expOf, habs]; rfl]
    show (if 0 < now then none else verifyUser kvs) = none
    rw [if_pos hnow]
  · rw [show expOf kvs = some e from by rw [expOf, hsome]; rfl]
    show (if e < now then none else verifyUser kvs) = none
    rw [if_pos hlt]

theorem claim_C4_expiry_witness :
    verify_simple_jwt JWT_SECRET_fallback 5
      (signedTokenOf JWT_SECRET_fallback "\x7b\"userId\": \"u\"\x7d".data) = none :=
  claim_C4_expiry JWT_SECRET_fallback 5 "\x7b\"userId\": \"u\"\x7d".data
    (.cons "userId" (.str "u") .nil) (by decide) (Or.inl ⟨by decide, by decide⟩)

/-- C5: issuance produces exactly the spec's wire format
`base64url(json({"sub", "userId", "email", "role", "groups", "exp"})) + "."
+ lowercase-hex(HMAC-SHA256(secret, base64url_payload))`, with the expiry
fixed at `now + 24h` and not configurable per call. -/
theorem claim_C5_wire_format (secret : String) (now : Nat) (u : DemoUser) :
    create_simple_jwt secret now u = specIssueToken secret now u := by
  simp only [create_simple_jwt, specIssueToken, jwtPayloadB64, hmacSha256HexChars,
    dump_payloadJson_spec]

/-- C6: a token issued under secret `a` fails verification under a different
secret `b`.  The failure rests on the two HMACs differing (hypothesis
`hmacne`, the cryptographic content of distinct keys, discharged by
computation in the witness). -/
theorem claim_C6_secret_sensitivity (a b : String) (now t : Nat) (u : DemoUser)
    (_hab : a ≠ b)
    (hmacne : hmacSha256HexChars b (jwtPayloadB64 u (now + 86400)) ≠
              hmacSha256HexChars a (jwtPayloadB64 u (now + 86400))) :
    verify_simple_jwt b t (create_simple_jwt a now u) = none := by
  show verify_simple_jwt b t (String.mk (jwtPayloadB64 u (now + 86400) ++ '.' ::
    hmacSha256HexChars a (jwtPayloadB64 u (now + 86400)))) = none
  exact verify_none_of_sig (b64encodeChars_no_dot _) (bytesToHexChars_no_dot _) (Ne.symm hmacne)

theorem claim_C6_secret_sensitivity_witness :
    verify_simple_jwt "other-secret" 0 (create_simple_jwt JWT_SECRET_fallback 0 adminUser) =
      none :=
  claim_C6_secret_sensitivity JWT_SECRET_fallback "other-secret" 0 0 adminUser (by decide)
    (by decide)

/-- C7: an input that does not split into exactly two "."-delimited parts
(no dot, or more than one dot) fails verification; `verify_simple_jwt` is a
total function, so no fault escapes to the caller. -/
theorem claim_C7_segment_guard (secret : String) (now : Nat) (token : String)
    (h : token.data.count '.' ≠ 1) :
    verify_simple_jwt secret now token = none :=
  verify_none_of_count h secret now

theorem claim_C7_segment_guard_witness :
    verify_simple_jwt JWT_SECRET_fallback 0 "abc" = none :=
  claim_C7_segment_guard JWT_SECRET_fallback 0 "abc" (by decide)

/-- C8: against the fixed demo store (single-round unsalted SHA-256 of the
UTF-8 password): the admin email with "password123" authenticates to the
admin identity; the same email with "wrongpass" fails; an email not in the
store fails for every password. -/
theorem claim_C8_credentials :
    authenticate_user "admin@example.com" "password123" = some adminUser ∧
    authenticate_user "admin@example.com" "wrongpass" = none ∧
    ∀ email password : String, email ≠ "admin@example.com" → email ≠ "user@example.com" →
      authenticate_user email password = none := by
  refine ⟨by decide, by decide, ?_⟩
  intro email password h1 h2
  have hb1 : (("admin@example.com" : String) == email) = false :=
    beq_false_of_ne (fun h => h1 h.symm)
  have hb2 : (("user@example.com" : String) == email) = false :=
    beq_false_of_ne (fun h => h2 h.symm)
  simp [authenticate_user, get_user_by_email, demo_users_db, List.find?, hb1, hb2]

theorem claim_C8_credentials_witness :
    authenticate_user "nobody@example.com" "anything" = none :=
  claim_C8_credentials.2.2 "nobody@example.com" "anything" (by decide) (by decide)

/-- C9: verification is total over arbitrary input strings: it always
returns either an identity or the single failure value `none`; in the
embedding every exception path of the Python `try`/bare-`except` is an
explicit `none`-returning branch. -/
theorem claim_C9_totality (secret : String) (now : Nat) (token : String) :
    verify_simple_jwt secret now token = none ∨
      ∃ u, verify_simple_jwt secret now token = some u := by
  cases h : verify_simple_jwt secret now token with
  | none => exact Or.inl rfl
  | some u => exact Or.inr ⟨u, rfl⟩

/-- C10: the `sub` claim is neither required nor used: a correctly signed,
unexpired token whose claims carry `userId`, `email`, `role` and `groups`
verifies to the identity built from those four fields alone — nothing in
the hypotheses constrains a `sub` member. -/
theorem claim_C10_sub_not_used (secret : String) (now : Nat) (payload_str : List Char)
    (kvs : JsonObj) (uid em rl : String) (gj : Json) (gs : List Group) (e : Nat)
    (hparse : parseJsonTop payload_str = some (.obj kvs))
    (hexp : expOf kvs = some e) (hnotexp : ¬ e < now)
    (huid : (objGetLast kvs "userId").bind asStr = some uid)
    (hem : (objGetLast kvs "email").bind asStr = some em)
    (hrl : (objGetLast kvs "role").bind asStr = some rl)
    (hgj : objGetLast kvs "groups" = some gj)
    (hgs : groupsOfJson gj = some gs) :
    verify_simple_jwt secret now (signedTokenOf secret payload_str) =
      some ⟨uid, em, rl, gs⟩ := by
  rw [verify_signedTokenOf, verifyClaims, hparse]
  show verifyPayload now kvs = some ⟨uid, em, rl, gs⟩
  rw [verifyPayload, hexp]
  show (if e < now then none else verifyUser kvs) = some ⟨uid, em, rl, gs⟩
  rw [if_neg hnotexp, verifyUser, huid, hem, hrl,
    show (objGetLast kvs "groups").bind groupsOfJson = groupsOfJson gj from by rw [hgj]; rfl,
    hgs]

theorem claim_C10_sub_not_used_witness :
    verify_simple_jwt JWT_SECRET_fallback 0 (signedTokenOf JWT_SECRET_fallback
      "\x7b\"userId\": \"u1\", \"email\": \"e\", \"role\": \"r\", \"groups\": [], \"exp\": 99\x7d".data) =
      some ⟨"u1", "e", "r", []⟩ :=
  claim_C10_sub_not_used JWT_SECRET_fallback 0
    "\x7b\"userId\": \"u1\", \"email\": \"e\", \"role\": \"r\", \"groups\": [], \"exp\": 99\x7d".data
    (.cons "userId" (.str "u1") (.cons "email" (.str "e") (.cons "role" (.str "r")
      (.cons "groups" (.arr .nil) (.cons "exp" (.num 99) .nil)))))
    "u1" "e" "r" (.arr .nil) [] 99 (by decide) (by decide) (by decide) (by decide) (by decide)
    (by decide) (by decide) (by decide)

end DemoAuth
